import Mathlib

set_option linter.unusedVariables false

/-
  Verification development for the fping probe scheduler and reply
  correlator (src/fping/src/fping.c).

  The definitions below are a shallow embedding of the relevant parts of
  fping.c.  Pure computations (exit-status calculation, event-storage
  sizing, CIDR expansion, response-buffer initialization, statistics
  recording) are translated as Lean functions.  The stateful core
  (main_loop with its ping queue, timeout queue, sequence map and per-host
  statistics) is translated as a step function on an explicit state type,
  driven by an environment oracle that supplies clock readings, send
  results and incoming replies (in the C program these come from
  clock_gettime, sendto and the ICMP socket).

  All times are int64 nanoseconds in the C source and are modelled as Int.

  Ghost state (never read by the modelled code, only by theorems):
    - Host.g_num_timeout / Host.g_num_senderr: per-host counts of handled
      timeout events and failed send attempts;
    - St.sends: trace of all send attempts, newest first;
    - SendRec.ord / SeqEntry.ord: ordinal of a send since program start;
    - St.null_deref: set when a resp_times access hits a NULL buffer.
-/

namespace Fping

/-- Response-slot flag values, from fping.c lines 160-164. -/
def RESP_WAITING : Int := -1

/-- Slot never used (fping.c line 162). -/
def RESP_UNUSED : Int := -2

/-- Send error on this trial (fping.c line 163). -/
def RESP_ERROR : Int := -3

/-- Trial timed out (fping.c line 164). -/
def RESP_TIMEOUT : Int := -4

/-- Maximum number of hosts that -g can generate (fping.c line 142). -/
def MAX_GENERATE : Nat := 131072

/-! ### CIDR and range expansion (fping.c add_cidr_ipv4, add_addr_range_ipv4)

IPv4 addresses are modelled as natural numbers below 2^32 (the C code uses
unsigned long, which is 64-bit on the supported LP64 platforms, so the
additions below do not wrap).  The expansion produces the list of
generated numeric addresses; add_name/DNS resolution is out of scope.
none models exit(1). -/

/-- Embedding of add_addr_range_ipv4 (fping.c lines 1569-1585): refuse
ranges that would generate MAX_GENERATE or more addresses, otherwise
produce start..end inclusive. -/
def add_addr_range_ipv4 (start_long end_long : Nat) : Option (List Nat) :=
  if start_long + MAX_GENERATE ≤ end_long then none
  else some ((List.range (end_long + 1 - start_long)).map (fun k => start_long + k))

/-- Embedding of add_cidr_ipv4 (fping.c lines 1424-1450).  The bitmask AND
with 0xFFFFFFFF shifted left by 32-mask clears the low 32-mask bits of the
(sub-2^32) address, which is division then multiplication by the block
size. -/
def add_cidr_ipv4 (net_addr_in mask : Nat) : Option (List Nat) :=
  if mask < 1 ∨ 32 < mask then none
  else if mask < 31 then
    add_addr_range_ipv4
      (net_addr_in / 2 ^ (32 - mask) * 2 ^ (32 - mask) + 1)
      (net_addr_in / 2 ^ (32 - mask) * 2 ^ (32 - mask) + 2 ^ (32 - mask) - 1 - 1)
  else
    add_addr_range_ipv4
      (net_addr_in / 2 ^ (32 - mask) * 2 ^ (32 - mask))
      (net_addr_in / 2 ^ (32 - mask) * 2 ^ (32 - mask) + 2 ^ (32 - mask) - 1)

/-! ### Response-buffer initialization (fping.c add_addr, lines 3034-3044)

The buffer is obtained from malloc, so its initial contents are whatever
the allocator returns; the parameter mem stands for that indeterminate
content.  The C loop then overwrites indices 1..trials-1 with
RESP_UNUSED and leaves index 0 untouched. -/

/-- Embedding of the resp_times initialization loop in add_addr:
for (n = 1; n < trials; n++) i[n] = RESP_UNUSED. -/
def init_resp_times (trials : Nat) (mem : List Int) : List Int :=
  (List.range' 1 (trials - 1)).foldl (fun a n => a.set n RESP_UNUSED) mem

/-! ### Event-storage sizing (fping.c main, lines 1144-1158) -/

/-- Embedding of the event_storage_count computation at startup.  The
division is C int64 division; all uses have nonnegative operands, where
every integer-division convention agrees. -/
def event_storage_count_init (count_flag loop_flag : Bool) (count : Nat)
    (timeout perhost_interval : Int) : Int :=
  if count_flag then (count : Int)
  else if loop_flag then
    (if perhost_interval > timeout then 1 else 1 + timeout / perhost_interval)
  else 1

/-- Formula stated by the claim: in loop mode, max(1, ceil(timeout /
perhost_interval) + 1).  Written from the claim text, for comparison with
event_storage_count_init. -/
def event_storage_count_claim (count_flag loop_flag : Bool) (count : Nat)
    (timeout perhost_interval : Int) : Int :=
  if count_flag then (count : Int)
  else if loop_flag then max 1 ((timeout + perhost_interval - 1) / perhost_interval + 1)
  else 1

/-! ### Exit status (fping.c finish, lines 1864-1917)

finish tallies num_unreachable from the per-host num_recv counters and
exits with a status that depends only on min_reachable, num_noaddress,
num_alive and that tally.  recvs is the list of per-host num_recv values
at termination. -/

/-- Embedding of the exit-status logic of finish.  num_unreachable starts
at 0 and is incremented once for every host with num_recv == 0. -/
def finish_status (min_reachable num_noaddress num_alive : Nat)
    (recvs : List Nat) : Nat :=
  let num_hosts := recvs.length
  let num_unreachable := (recvs.filter (fun r => r == 0)).length
  if min_reachable ≠ 0 then
    (if min_reachable ≤ num_hosts - num_unreachable then 0 else 1)
  else if num_noaddress ≠ 0 then 2
  else if num_alive ≠ num_hosts then 1
  else 0

/-- Exit status as described by the claim: with the threshold set, 0 iff
at least min_reachable hosts have num_recv ≥ 1; else 2 if any targets had
no address; else 1 if some host has num_recv = 0; else 0.  Written from
the claim text, for comparison with finish_status. -/
def finish_status_spec (min_reachable num_noaddress num_alive : Nat)
    (recvs : List Nat) : Nat :=
  if min_reachable ≠ 0 then
    (if min_reachable ≤ (recvs.filter (fun r => r != 0)).length then 0 else 1)
  else if 0 < num_noaddress then 2
  else if recvs.any (fun r => r == 0) then 1
  else 0

/-! ### The scheduler state -/

/-- Static configuration of a run (command-line options after parsing).
backoff_mul models the update h->timeout *= backoff; seqmap_window is the
retention window of the sequence map (seqmap.c is not under src/, see
seqmap_fetch). -/
structure Config where
  loop_flag : Bool
  count_flag : Bool
  count : Nat
  retry : Nat
  backoff_flag : Bool
  interval : Int
  perhost_interval : Int
  timeout : Int
  backoff_mul : Int → Int
  seqmap_window : Int

/-- Per-host state, following struct host_entry (fping.c lines 222-249).
resp_times is none when the buffer was never allocated (loop mode). -/
structure Host where
  timeout : Int
  last_send_time : Int := 0
  num_sent : Nat := 0
  num_recv : Nat := 0
  num_recv_total : Nat := 0
  num_sent_i : Nat := 0
  num_recv_i : Nat := 0
  max_reply : Int := 0
  min_reply : Int := 0
  total_time : Int := 0
  max_reply_i : Int := 0
  min_reply_i : Int := 0
  total_time_i : Int := 0
  resp_times : Option (List Int) := none
  g_num_timeout : Nat := 0
  g_num_senderr : Nat := 0
deriving DecidableEq

/-- Default host used for out-of-range table lookups. -/
def host0 : Host := { timeout := 0 }

/-- An event in one of the two queues (struct event, fping.c lines
271-277).  slot identifies the preallocated storage cell
(ping_index mod event_storage_count); an event is live iff it appears in
a queue list. -/
structure Ev where
  host : Nat
  slot : Nat
  ping_index : Nat
  ev_time : Int
deriving DecidableEq

/-- A sequence-map entry (spec section 3: a (host_index, ping_index)
target pointer and the send-time nanoseconds).  ord is ghost. -/
structure SeqEntry where
  host_nr : Nat
  ping_count : Nat
  ping_ts : Int
  ord : Nat
deriving DecidableEq

/-- Ghost record of one send attempt. -/
structure SendRec where
  host : Nat
  idx : Nat
  time : Int
  via_retry : Bool
  seq : Nat
  ord : Nat
deriving DecidableEq

/-- A reply delivered by the environment: the clock reading taken when it
is processed and the ICMP sequence number it carries.  Packets that fail
the id/type checks of wait_for_reply are dropped without touching the
state modelled here, so the oracle only delivers packets that reach the
sequence-map lookup. -/
structure Reply where
  clk : Int
  seq : Nat
deriving DecidableEq

/-- Environment oracle for one main_loop iteration: the clock reading
used if a send happens (update_current_time inside send_ping), whether
sendto succeeds (EHOSTDOWN counts as success, fping.c lines 2207-2212),
the replies readable from the socket this iteration, and the clock
reading after the select sleep. -/
structure IterOracle where
  send_clk : Int
  send_ok : Bool
  replies : List Reply
  end_clk : Int
deriving DecidableEq

/-- Global mutable state of the program core. -/
structure St where
  now : Int
  last_send_time : Int
  hosts : List Host
  q_ping : List Ev
  q_timeout : List Ev
  seqmap : List (Nat × SeqEntry)
  seq_counter : Nat
  num_timeout : Nat := 0
  num_pingsent : Nat := 0
  num_pingreceived : Nat := 0
  num_alive : Nat := 0
  sends : List SendRec := []
  null_deref : Bool := false
deriving DecidableEq

/-- Table lookup, with a default for out-of-range indices. -/
def getHost (hs : List Host) (i : Nat) : Host := hs.getD i host0

/-- Table update. -/
def setHost (hs : List Host) (i : Nat) (h : Host) : List Host := hs.set i h

/-! ### Event queues (fping.c ev_enqueue / ev_dequeue / ev_remove) -/

/-- Embedding of ev_enqueue (fping.c lines 3220-3261) acting on the
sorted queue list: the C code scans from the tail and inserts the event
after every event whose ev_time is ≤ the new one, which on a sorted list
is insertion before the first strictly later element. -/
def ev_enqueue : List Ev → Ev → List Ev
  | [], e => [e]
  | x :: xs, e => if x.ev_time ≤ e.ev_time then x :: ev_enqueue xs e else e :: x :: xs

/-- Embedding of ev_remove as invoked through host_get_timeout_event
(fping.c lines 2799-2803, 3201-3204): unlink whatever event currently
lives in the storage slot of the given host.  At most one event per slot
is live at a time (the event_storage_count sizing rule), which filter
realizes on the list model. -/
def ev_remove_slot (q : List Ev) (hostIdx slot : Nat) : List Ev :=
  q.filter (fun e => !(e.host == hostIdx && e.slot == slot))

/-! ### Sequence map

Modelled from the spec: seqmap.c is not under src/; only its callers
(send_ping, wait_for_reply) are.  Spec section 4.3: a fixed-capacity
table keyed by a 16-bit counter that increments on every send; add stores
(host_index, ping_index, send_ns) under the next sequence number and
returns it; fetch returns the entry iff present and not older than a max
retention interval. -/

/-- Modelled from the spec: seqmap_add.  Returns (new map, assigned
sequence, new counter).  ord is the ghost send ordinal. -/
def seqmap_add (m : List (Nat × SeqEntry)) (counter : Nat)
    (host_nr ping_count : Nat) (ts : Int) (ord : Nat) :
    List (Nat × SeqEntry) × Nat × Nat :=
  let seq := counter % 65536
  ((seq, ⟨host_nr, ping_count, ts, ord⟩) :: m.filter (fun kv => kv.1 != seq),
   seq, counter + 1)

/-- Modelled from the spec: seqmap_fetch.  Absent or expired entries
yield none. -/
def seqmap_fetch (window : Int) (m : List (Nat × SeqEntry)) (seq : Nat)
    (now : Int) : Option SeqEntry :=
  match m.find? (fun kv => kv.1 == seq) with
  | none => none
  | some kv => if now - kv.2.ping_ts ≤ window then some kv.2 else none

/-! ### resp_times access helpers

Reads and writes through the possibly-NULL resp_times pointer.  The Bool
result is the ghost null-dereference flag: true when the C code would
have dereferenced a NULL pointer. -/

/-- Read resp_times[i]; flags a null dereference when the buffer was
never allocated. -/
def resp_read (h : Host) (i : Nat) : Int × Bool :=
  ((h.resp_times.getD []).getD i 0, h.resp_times.isNone)

/-- Write resp_times[i] when cond holds (the C sources guard every such
write with a conjunction ending in the value test, e.g.
if (!loop_flag && index >= 0) h->resp_times[index] = v).  The Bool
result flags a null dereference: the write was attempted while the
buffer was never allocated. -/
def resp_write_if (cond : Bool) (h : Host) (i : Nat) (v : Int) : Host × Bool :=
  ({ h with resp_times := if cond then h.resp_times.map (fun l => l.set i v)
                          else h.resp_times },
   cond && h.resp_times.isNone)

/-! ### Statistics recording (fping.c stats_add, lines 2374-2418) -/

/-- Result of stats_add: the updated host, the updated global num_timeout
counter, and the ghost null-dereference flag. -/
structure StatsOut where
  host : Host
  num_timeout : Nat
  null_deref : Bool
deriving DecidableEq

/-- Embedding of stats_add.  index has C type int (it is a ping index,
-1 meaning no slot); success false is a timeout.  The ghost per-host
g_num_timeout counter is incremented exactly when stats_add records a
timeout, mirroring the global num_timeout increment. -/
def stats_add (loop_flag : Bool) (h0 : Host) (index : Int) (success : Bool)
    (latency : Int) (num_timeout : Nat) : StatsOut :=
  let h1 := { h0 with num_sent := h0.num_sent + 1, num_sent_i := h0.num_sent_i + 1 }
  if success then
    let h2 := { h1 with num_recv := h1.num_recv + 1, num_recv_i := h1.num_recv_i + 1 }
    let h3 := { h2 with
      max_reply := if h2.max_reply = 0 ∨ latency > h2.max_reply then latency else h2.max_reply,
      max_reply_i := if h2.max_reply_i = 0 ∨ latency > h2.max_reply_i then latency else h2.max_reply_i }
    let h4 := { h3 with
      min_reply := if h3.min_reply = 0 ∨ latency < h3.min_reply then latency else h3.min_reply,
      min_reply_i := if h3.min_reply_i = 0 ∨ latency < h3.min_reply_i then latency else h3.min_reply_i }
    let h5 := { h4 with total_time := h4.total_time + latency,
                        total_time_i := h4.total_time_i + latency }
    let wr := resp_write_if (decide (loop_flag = false ∧ 0 ≤ index))
                h5 index.toNat latency
    ⟨wr.1, num_timeout, wr.2⟩
  else
    let wr := resp_write_if (decide (loop_flag = false ∧ 0 ≤ index))
                h1 index.toNat RESP_TIMEOUT
    ⟨{ wr.1 with g_num_timeout := wr.1.g_num_timeout + 1 }, num_timeout + 1, wr.2⟩

/-! ### Sending a probe (fping.c send_ping, lines 2179-2241) -/

/-- Embedding of send_ping.  send_clk is the clock reading taken by
update_current_time at its entry; send_ok is false exactly when sendto
failed with an errno other than EHOSTDOWN (the error path of lines
2207-2226).  via_retry is ghost: true when invoked from the timeout
handler. -/
def send_ping (loop_flag : Bool) (esc : Nat) (s : St) (hIdx index : Nat)
    (send_clk : Int) (send_ok : Bool) (via_retry : Bool) : St :=
  let h1 := { getHost s.hosts hIdx with last_send_time := send_clk }
  let ord := s.sends.length
  let am := seqmap_add s.seqmap s.seq_counter hIdx index send_clk ord
  let rec0 : SendRec := ⟨hIdx, index, send_clk, via_retry, am.2.1, ord⟩
  if send_ok then
    let wr := resp_write_if (decide (loop_flag = false)) h1 index RESP_WAITING
    { s with now := send_clk,
             hosts := setHost s.hosts hIdx wr.1,
             seqmap := am.1, seq_counter := am.2.2,
             q_timeout := ev_enqueue s.q_timeout ⟨hIdx, index % esc, index, send_clk + h1.timeout⟩,
             num_pingsent := s.num_pingsent + 1,
             last_send_time := send_clk,
             sends := rec0 :: s.sends,
             null_deref := s.null_deref || wr.2 }
  else
    let h2 := { h1 with num_sent := h1.num_sent + 1, num_sent_i := h1.num_sent_i + 1,
                        g_num_senderr := h1.g_num_senderr + 1 }
    let wr := resp_write_if (decide (loop_flag = false)) h2 index RESP_ERROR
    { s with now := send_clk,
             hosts := setHost s.hosts hIdx wr.1,
             seqmap := am.1, seq_counter := am.2.2,
             num_pingsent := s.num_pingsent + 1,
             last_send_time := send_clk,
             sends := rec0 :: s.sends,
             null_deref := s.null_deref || wr.2 }

/-! ### Reply processing (fping.c wait_for_reply, lines 2658-2879)

Only the part after a packet has passed the family/type/id checks is
modelled; packets failing those checks leave this state untouched.
check_source_flag is unset (its only effect is an extra drop). -/

/-- Embedding of the reply path of wait_for_reply: refresh the clock,
look up the sequence map, count the packet in num_recv_total, drop
duplicates (count mode) and late replies, record statistics, reset the
host timeout to the configured base, unlink the pending timeout event,
and track num_alive on a host's first accepted reply. -/
def wait_for_reply_model (cfg : Config) (esc : Nat) (s0 : St) (r : Reply) : St :=
  let s := { s0 with now := r.clk }
  match seqmap_fetch cfg.seqmap_window s.seqmap r.seq r.clk with
  | none => s
  | some e =>
    let n := e.host_nr
    let this_count := e.ping_count
    let this_reply := r.clk - e.ping_ts
    let h1 : Host := { getHost s.hosts n with
                num_recv_total := (getHost s.hosts n).num_recv_total + 1 }
    let nd1 := decide (cfg.loop_flag = false) && (resp_read h1 this_count).2
    let s1 : St := { s with
      hosts := setHost s.hosts n h1,
      num_pingreceived := s.num_pingreceived + 1,
      null_deref := s.null_deref || nd1 }
    if cfg.loop_flag = false ∧ 0 ≤ (resp_read h1 this_count).1 then s1
    else if h1.timeout < this_reply then s1
    else
      let out := stats_add cfg.loop_flag h1 (Int.ofNat this_count) true this_reply s1.num_timeout
      let h2 : Host := { out.host with timeout := cfg.timeout }
      let s2 : St := { s1 with
        hosts := setHost s1.hosts n h2,
        num_timeout := out.num_timeout,
        null_deref := s1.null_deref || out.null_deref,
        q_timeout := ev_remove_slot s1.q_timeout n (this_count % esc) }
      if h2.num_recv = 1 then { s2 with num_alive := s2.num_alive + 1 } else s2

/-! ### main_loop (fping.c lines 1644-1808) -/

/-- Embedding of the timeout-event branch of main_loop (lines 1655-1701):
dequeue the due timeout, record a miss, and in one-shot mode retry with
optional backoff while fewer than retry+1 probes were sent. -/
def timeout_branch (cfg : Config) (esc : Nat) (s : St) (o : IterOracle)
    (ev : Ev) (rest : List Ev) : St :=
  let out := stats_add cfg.loop_flag (getHost s.hosts ev.host)
               (Int.ofNat ev.ping_index) false (-1) s.num_timeout
  let s1 : St := { s with
    q_timeout := rest,
    hosts := setHost s.hosts ev.host out.host,
    num_timeout := out.num_timeout,
    null_deref := s.null_deref || out.null_deref }
  if cfg.loop_flag = false ∧ cfg.count_flag = false then
    if out.host.num_sent < cfg.retry + 1 then
      let h2 := if cfg.backoff_flag
                then { out.host with timeout := cfg.backoff_mul out.host.timeout }
                else out.host
      let s2 := { s1 with hosts := setHost s1.hosts ev.host h2 }
      send_ping cfg.loop_flag esc s2 ev.host ev.ping_index o.send_clk o.send_ok true
    else s1
  else s1

/-- Embedding of the ping-event branch of main_loop (lines 1703-1723):
send only when the head event is due and the global inter-send floor
now - last_send_time ≥ interval holds; in loop mode, and in count mode
while trials remain, schedule the next ping of the same host at the due
time (not now) plus perhost_interval. -/
def ping_branch (cfg : Config) (esc : Nat) (s : St) (o : IterOracle) : St :=
  match s.q_ping with
  | [] => s
  | ev :: rest =>
    if ev.ev_time - s.now ≤ 0 then
      if s.now - s.last_send_time < cfg.interval then s
      else
        let s1 := send_ping cfg.loop_flag esc { s with q_ping := rest }
                    ev.host ev.ping_index o.send_clk o.send_ok false
        if cfg.loop_flag = true ∨ (cfg.count_flag = true ∧ ev.ping_index + 1 < cfg.count) then
          { s1 with
            q_ping := ev_enqueue s1.q_ping
              (Ev.mk ev.host ((ev.ping_index + 1) % esc) (ev.ping_index + 1)
                (ev.ev_time + cfg.perhost_interval)) }
        else s1
    else s

/-- The wait phase of one iteration: try the ping branch, then process
the replies the socket yields, then refresh the clock after the sleep
(lines 1725-1789). -/
def wait_phase (cfg : Config) (esc : Nat) (s : St) (o : IterOracle) : St :=
  let s1 := ping_branch cfg esc s o
  let s2 := o.replies.foldl (wait_for_reply_model cfg esc) s1
  { s2 with now := o.end_clk }

/-- One iteration of main_loop.  Timeout events are checked first; a
handled timeout restarts the loop (the continue at line 1700), so the
ping branch and the wait only run when no timeout was due.  When both
queues are empty the loop has exited and the state no longer changes. -/
def main_loop_iter (cfg : Config) (esc : Nat) (s : St) (o : IterOracle) : St :=
  if s.q_ping = [] ∧ s.q_timeout = [] then s
  else
    match s.q_timeout with
    | ev :: rest =>
      if ev.ev_time - s.now ≤ 0 then timeout_branch cfg esc s o ev rest
      else wait_phase cfg esc s o
    | [] => wait_phase cfg esc s o

/-- A run of main_loop driven by a list of per-iteration oracles. -/
def run_loop (cfg : Config) (esc : Nat) (s : St) (os : List IterOracle) : St :=
  os.foldl (main_loop_iter cfg esc) s

/-- Clock sanity of an oracle stream for a run: every clock reading taken
inside send_ping is at least the current cached time (the monotonic clock
never runs backwards between the loop check and the send). -/
def good_oracles (cfg : Config) (esc : Nat) : St → List IterOracle → Bool
  | _, [] => true
  | s, o :: os =>
    decide (s.now ≤ o.send_clk) && good_oracles cfg esc (main_loop_iter cfg esc s o) os

/-! ### Startup (fping.c add_addr, lines 3005-3054, and main) -/

/-- Embedding of add_addr: allocate the host entry with the configured
base timeout, allocate and initialize resp_times unless in loop mode
(mem is the indeterminate malloc content), and schedule the first ping
at the current time. -/
def add_addr (cfg : Config) (esc trials : Nat) (mem : List Int) (s : St) : St :=
  let resp := if cfg.loop_flag = false then some (init_resp_times trials mem) else none
  let h : Host := { timeout := cfg.timeout, resp_times := resp }
  { s with hosts := s.hosts ++ [h],
           q_ping := ev_enqueue s.q_ping (Ev.mk s.hosts.length (0 % esc) 0 s.now) }

/-- Initial state before main_loop: current time read once (start), then
one add_addr per target.  mems supplies the malloc contents of the
resp_times buffers. -/
def mk_init (cfg : Config) (esc trials : Nat) (start : Int)
    (mems : List (List Int)) : St :=
  mems.foldl (fun s mem => add_addr cfg esc trials mem s)
    { now := start, last_send_time := 0, hosts := [], q_ping := [],
      q_timeout := [], seqmap := [], seq_counter := 0 }

/-! ### Trace predicates -/

/-- Global pacing of the ghost send trace (newest first): every send that
was dispatched from the ping queue (not a timeout-handler retry) happens
at least interval after the immediately preceding send. -/
def paced_ping (interval : Int) : List SendRec → Bool
  | b :: a :: rest =>
    (b.via_retry || decide (a.time + interval ≤ b.time)) && paced_ping interval (a :: rest)
  | _ => true

/-- Ghost send record of ordinal ord in a newest-first trace. -/
def ord_get (sends : List SendRec) (ord : Nat) : Option SendRec :=
  sends.get? (sends.length - 1 - ord)

/-- Pacing as the claim states it: every pair of consecutive sends, of
any kind, is at least interval apart.  Written from the claim text. -/
def paced_all (interval : Int) : List SendRec → Bool
  | b :: a :: rest =>
    decide (a.time + interval ≤ b.time) && paced_all interval (a :: rest)
  | _ => true

/-- Per-host pacing as the claim states it: consecutive sends to the
given host are at least perhost_interval apart (the first send has no
predecessor, so it is not constrained).  Written from the claim text. -/
def paced_host (perhost_interval : Int) (hIdx : Nat) (sends : List SendRec) : Bool :=
  paced_all perhost_interval (sends.filter (fun r => r.host == hIdx))

/-- Consistency of the cached last_send_time with the ghost trace: it
equals the timestamp of the most recent send, if any. -/
def last_send_consistent (s : St) : Prop :=
  ∀ r ∈ s.sends.head?, s.last_send_time = r.time

/-- Correlation invariant of the sequence map: every live entry records
the data of exactly one prior send, namely the one with its ghost
ordinal. -/
def seq_inv (s : St) : Prop :=
  ∀ kv ∈ s.seqmap,
    kv.2.ord < s.sends.length ∧
    ∃ r : SendRec, ord_get s.sends kv.2.ord = some r ∧
      r.host = kv.2.host_nr ∧ r.idx = kv.2.ping_count ∧
      r.time = kv.2.ping_ts ∧ r.seq = kv.1 ∧ r.ord = kv.2.ord

/-! ### Concrete run used to refute the pacing claim (C2)

One-shot mode, two hosts, interval 100 ns, per-host interval 1000 ns,
timeout 150 ns.  Host 0 is sent at t=1000, host 1 at t=1100 (held back by
the global interval); host 0 times out at t=1150 and the timeout handler
retries immediately, 50 ns after the previous send. -/

/-- Configuration of the concrete refutation run. -/
def cfg_c2 : Config :=
  { loop_flag := false, count_flag := false, count := 1, retry := 3,
    backoff_flag := false, interval := 100, perhost_interval := 1000,
    timeout := 150, backoff_mul := fun t => t, seqmap_window := 100000 }

/-- Initial state of the refutation run: two hosts added at start time
1000 (trials = retry + 1 = 4, event_storage_count = 1). -/
def st_c2 : St := mk_init cfg_c2 1 4 1000 [[0, 0, 0, 0], [0, 0, 0, 0]]

/-- Environment of the refutation run: no replies ever arrive; clock
readings as described above. -/
def orcs_c2 : List IterOracle :=
  [⟨1000, true, [], 1000⟩, ⟨1100, true, [], 1100⟩, ⟨1100, true, [], 1100⟩,
   ⟨1150, true, [], 1150⟩, ⟨1150, true, [], 1150⟩]

end Fping

namespace Fping

/-! ### Generic list lemmas -/

theorem set_getD_ne (l : List Int) (i j : Nat) (v d : Int) (h : j ≠ i) :
    (l.set i v).getD j d = l.getD j d := by
  induction l generalizing i j with
  | nil => rfl
  | cons x xs ih =>
    cases i with
    | zero =>
      cases j with
      | zero => exact absurd rfl h
      | succ j2 => rfl
    | succ i2 =>
      cases j with
      | zero => rfl
      | succ j2 => exact ih i2 j2 (fun hh => h (by rw [hh]))

theorem set_getD_self (l : List Int) (i : Nat) (v d : Int) (h : i < l.length) :
    (l.set i v).getD i d = v := by
  induction l generalizing i with
  | nil => simp at h
  | cons x xs ih =>
    cases i with
    | zero => rfl
    | succ i2 => exact ih i2 (by simpa using h)

theorem foldl_set_length (idxs : List Nat) (l : List Int) (v : Int) :
    (idxs.foldl (fun a n => a.set n v) l).length = l.length := by
  induction idxs generalizing l with
  | nil => rfl
  | cons i is ih => simpa [List.length_set] using ih (l.set i v)

theorem foldl_set_getD_notmem (idxs : List Nat) (l : List Int) (v d : Int)
    (j : Nat) (hj : j ∉ idxs) :
    (idxs.foldl (fun a n => a.set n v) l).getD j d = l.getD j d := by
  induction idxs generalizing l with
  | nil => rfl
  | cons i is ih =>
    have h1 : j ≠ i := fun hh => hj (hh ▸ List.mem_cons_self i is)
    have h2 : j ∉ is := fun hh => hj (List.mem_cons_of_mem i hh)
    rw [List.foldl_cons, ih (l.set i v) h2, set_getD_ne l i j v d h1]

theorem foldl_set_getD_mem (idxs : List Nat) (l : List Int) (v d : Int)
    (j : Nat) (hmem : j ∈ idxs) (hlen : j < l.length) :
    (idxs.foldl (fun a n => a.set n v) l).getD j d = v := by
  induction idxs generalizing l with
  | nil => simp at hmem
  | cons i is ih =>
    by_cases hji : j ∈ is
    · exact ih (l.set i v) hji (by rw [List.length_set]; exact hlen)
    · have hj : j = i := by
        rcases List.mem_cons.mp hmem with h | h
        · exact h
        · exact absurd h hji
      subst hj
      rw [List.foldl_cons,
          foldl_set_getD_notmem is (l.set j v) v d j hji,
          set_getD_self l j v d hlen]

/-! ### C3: event_storage_count -/

/-- C3 counterexample: in loop mode with timeout 0.5 s and
perhost_interval 1 s the code allocates floor(t/p)+1 = 1 slot while the
claim formula max(1, ceil(t/p)+1) gives 2; with timeout 2.5 s the code
gives 3 while the claim gives 4. -/
theorem event_storage_count_claim_counterexample :
    event_storage_count_init false true 1 500000000 1000000000 = 1 ∧
    event_storage_count_claim false true 1 500000000 1000000000 = 2 ∧
    event_storage_count_init false true 1 2500000000 1000000000 = 3 ∧
    event_storage_count_claim false true 1 2500000000 1000000000 = 4 := by
  decide

/-- C3 amended: at startup event_storage_count equals count in count
mode, floor(timeout / perhost_interval) + 1 in loop mode (integer
division; the code's accumulation loop stops once the sum exceeds the
timeout), and 1 in all other modes. -/
theorem event_storage_count_amended (cf lf : Bool) (c : Nat) (t p : Int)
    (ht : 0 ≤ t) (hp : 0 < p) :
    event_storage_count_init cf lf c t p =
      (if cf then (c : Int) else if lf then t / p + 1 else 1) := by
  unfold event_storage_count_init
  by_cases hcf : cf
  · simp [hcf]
  · by_cases hlf : lf
    · simp only [hcf, hlf, if_false, if_true, Bool.false_eq_true, Bool.true_eq_false]
      by_cases hpt : p > t
      · rw [if_pos hpt, Int.ediv_eq_zero_of_lt ht hpt]
        omega
      · rw [if_neg hpt]; ring
    · simp [hcf, hlf]

theorem event_storage_count_amended_w :
    (0 : Int) ≤ 500000000 ∧ (0 : Int) < 1000000000 ∧
    event_storage_count_init false true 1 500000000 1000000000 =
      (if false then ((1 : Nat) : Int)
       else if true then (500000000 : Int) / 1000000000 + 1 else 1) :=
  ⟨by decide, by decide,
   event_storage_count_amended false true 1 500000000 1000000000
     (by decide) (by decide)⟩

/-! ### C8: CIDR expansion -/

/-- C8 counterexample: prefixes of length at most 14 exceed
MAX_GENERATE = 131072 addresses and are rejected (the program aborts),
e.g. 10.0.0.0/8 and 10.0.0.0/14, contradicting the unconditional
"1 <= m < 31" claim. -/
theorem add_cidr_claim_counterexample :
    add_cidr_ipv4 167772160 8 = none ∧
    add_cidr_ipv4 167772160 14 = none := by
  decide

/-- C8 amended: IPv4 CIDR expansion with prefix length m, 15 <= m <= 30,
generates exactly the addresses strictly between network and broadcast;
m = 31 and m = 32 generate all 2^(32-m) addresses including both
endpoints; m <= 14 (and m = 0 or m > 32) is rejected; 10.0.0.0/30
expands to exactly addresses .1 and .2. -/
theorem add_cidr_ipv4_amended (a m : Nat) :
    (15 ≤ m → m ≤ 30 →
      add_cidr_ipv4 a m =
        some ((List.range (2 ^ (32 - m) - 2)).map
          (fun k => a / 2 ^ (32 - m) * 2 ^ (32 - m) + 1 + k))) ∧
    (m = 31 → add_cidr_ipv4 a m = some [a / 2 * 2, a / 2 * 2 + 1]) ∧
    (m = 32 → add_cidr_ipv4 a m = some [a]) ∧
    (1 ≤ m → m ≤ 14 → add_cidr_ipv4 a m = none) ∧
    add_cidr_ipv4 167772160 30 = some [167772161, 167772162] := by
  refine ⟨?_, ?_, ?_, ?_, by decide⟩
  · intro h15 h30
    have hble : 2 ^ (32 - m) ≤ 131072 := by
      calc 2 ^ (32 - m) ≤ 2 ^ 17 := Nat.pow_le_pow_right (by norm_num) (by omega)
        _ = 131072 := by norm_num
    have hb4 : 4 ≤ 2 ^ (32 - m) := by
      calc (4 : Nat) = 2 ^ 2 := by norm_num
        _ ≤ 2 ^ (32 - m) := Nat.pow_le_pow_right (by norm_num) (by omega)
    unfold add_cidr_ipv4 add_addr_range_ipv4 MAX_GENERATE
    generalize hB : 2 ^ (32 - m) = B at *
    generalize hnet : a / B * B = net
    rw [if_neg (by omega), if_pos (by omega), if_neg (by omega)]
    have harg : net + B - 1 - 1 + 1 - (net + 1) = B - 2 := by omega
    rw [harg]
  · intro h31
    subst h31
    have e1 : add_cidr_ipv4 a 31 =
        add_addr_range_ipv4 (a / 2 * 2) (a / 2 * 2 + 2 - 1) := by
      unfold add_cidr_ipv4
      rw [if_neg (by decide), if_neg (by decide)]
      norm_num
    rw [e1]
    unfold add_addr_range_ipv4 MAX_GENERATE
    generalize hnet : a / 2 * 2 = net
    rw [if_neg (by omega)]
    have harg : net + 2 - 1 + 1 - net = 2 := by omega
    rw [harg]
    have hr2 : List.range 2 = [0, 1] := by decide
    rw [hr2]
    simp
  · intro h32
    subst h32
    have e1 : add_cidr_ipv4 a 32 =
        add_addr_range_ipv4 (a / 1 * 1) (a / 1 * 1 + 1 - 1) := by
      unfold add_cidr_ipv4
      rw [if_neg (by decide), if_neg (by decide)]
      norm_num
    rw [e1]
    unfold add_addr_range_ipv4 MAX_GENERATE
    have ha : a / 1 * 1 = a := by omega
    rw [ha]
    rw [if_neg (by omega)]
    have harg : a + 1 - 1 + 1 - a = 1 := by omega
    rw [harg]
    have hr1 : List.range 1 = [0] := by decide
    rw [hr1]
    simp
  · intro h1 h14
    have hbge : 262144 ≤ 2 ^ (32 - m) := by
      calc (262144 : Nat) = 2 ^ 18 := by norm_num
        _ ≤ 2 ^ (32 - m) := Nat.pow_le_pow_right (by norm_num) (by omega)
    unfold add_cidr_ipv4 add_addr_range_ipv4 MAX_GENERATE
    generalize hB : 2 ^ (32 - m) = B at *
    generalize hnet : a / B * B = net
    rw [if_neg (by omega), if_pos (by omega), if_pos (by omega)]

theorem add_cidr_ipv4_amended_w :
    add_cidr_ipv4 167772160 30 =
      some ((List.range (2 ^ (32 - 30) - 2)).map
        (fun k => 167772160 / 2 ^ (32 - 30) * 2 ^ (32 - 30) + 1 + k)) ∧
    add_cidr_ipv4 167772160 31 = some [167772160 / 2 * 2, 167772160 / 2 * 2 + 1] :=
  ⟨(add_cidr_ipv4_amended 167772160 30).1 (by decide) (by decide),
   (add_cidr_ipv4_amended 167772160 31).2.1 rfl⟩

/-! ### C9: resp_times initialization -/

/-- C9 counterexample: the buffer comes from malloc, so index 0 holds
whatever the allocator returned (here 7), not necessarily 0 as the claim
asserts. -/
theorem resp_times_idx0_counterexample :
    ¬ (init_resp_times 2 [7, 5]).getD 0 0 = 0 := by decide

/-- C9 amended: after a host is added in count mode its resp_times
buffer of length trials has resp_times[n] = RESP_UNUSED for every
1 <= n < trials, while resp_times[0] keeps the indeterminate value the
allocator returned (malloc, not calloc). -/
theorem init_resp_times_amended (trials : Nat) (mem : List Int)
    (hlen : mem.length = trials) :
    (∀ n, 1 ≤ n → n < trials →
      (init_resp_times trials mem).getD n 0 = RESP_UNUSED) ∧
    (init_resp_times trials mem).getD 0 0 = mem.getD 0 0 ∧
    (init_resp_times trials mem).length = trials := by
  refine ⟨?_, ?_, ?_⟩
  · intro n h1 hn
    unfold init_resp_times
    apply foldl_set_getD_mem
    · have hmem : n ∈ List.range' 1 (trials - 1) ↔ 1 ≤ n ∧ n < 1 + (trials - 1) :=
        List.mem_range'_1
      exact hmem.mpr ⟨h1, by omega⟩
    · omega
  · unfold init_resp_times
    apply foldl_set_getD_notmem
    intro hmem
    have h2 : 1 ≤ 0 ∧ 0 < 1 + (trials - 1) := List.mem_range'_1.mp hmem
    omega
  · unfold init_resp_times
    rw [foldl_set_length]
    exact hlen

theorem init_resp_times_amended_w :
    ([7, 5] : List Int).length = 2 ∧
    (init_resp_times 2 [7, 5]).getD 1 0 = RESP_UNUSED ∧
    (init_resp_times 2 [7, 5]).getD 0 0 = ([7, 5] : List Int).getD 0 0 ∧
    (init_resp_times 2 [7, 5]).length = 2 :=
  ⟨by decide,
   (init_resp_times_amended 2 [7, 5] (by decide)).1 1 (by decide) (by decide),
   (init_resp_times_amended 2 [7, 5] (by decide)).2.1,
   (init_resp_times_amended 2 [7, 5] (by decide)).2.2⟩

/-! ### C1: exit status -/

theorem filter_zero_split (recvs : List Nat) :
    (recvs.filter (fun r => r != 0)).length + (recvs.filter (fun r => r == 0)).length
      = recvs.length := by
  induction recvs with
  | nil => rfl
  | cons x xs ih =>
    by_cases hx : x = 0
    · subst hx
      have e1 : List.filter (fun r => r != 0) (0 :: xs)
          = List.filter (fun r => r != 0) xs := rfl
      have e2 : List.filter (fun r => r == 0) (0 :: xs)
          = 0 :: List.filter (fun r => r == 0) xs := rfl
      rw [e1, e2]
      simp only [List.length_cons]
      omega
    · have h1 : (x != 0) = true := by simpa using hx
      have h2 : (x == 0) = false := by simpa using hx
      rw [List.filter_cons, List.filter_cons, h1, h2]
      simp only [List.length_cons]
      simp
      omega

theorem any_zero_iff (recvs : List Nat) :
    recvs.any (fun r => r == 0) = true ↔
      (recvs.filter (fun r => r == 0)).length ≠ 0 := by
  rw [List.any_eq_true]
  constructor
  · rintro ⟨x, hx, hx0⟩
    intro hlen
    rw [List.length_eq_zero] at hlen
    have hmem : x ∈ recvs.filter (fun r => r == 0) := List.mem_filter.mpr ⟨hx, hx0⟩
    rw [hlen] at hmem
    simp at hmem
  · intro hlen
    rcases List.exists_mem_of_length_pos (Nat.pos_of_ne_zero hlen) with ⟨x, hx⟩
    rcases List.mem_filter.mp hx with ⟨hmem, hx0⟩
    exact ⟨x, hmem, hx0⟩

/-- C1: at finalization the exit status computed by finish (with
num_alive maintained as the number of hosts with at least one accepted
reply) agrees with the claim: with --reachable=N set, 0 iff at least N
hosts are reachable, else 1; otherwise 2 if num_noaddress > 0; else 1 if
some host has num_recv = 0; else 0. -/
theorem finish_exit_status_spec (mr na al : Nat) (recvs : List Nat)
    (hal : al = (recvs.filter (fun r => r != 0)).length) :
    finish_status mr na al recvs = finish_status_spec mr na al recvs := by
  unfold finish_status finish_status_spec
  have hsplit := filter_zero_split recvs
  by_cases hmr : mr ≠ 0
  · rw [if_pos hmr, if_pos hmr]
    have heq : recvs.length - (recvs.filter (fun r => r == 0)).length
        = (recvs.filter (fun r => r != 0)).length := by omega
    rw [heq]
  · rw [if_neg hmr, if_neg hmr]
    by_cases hna : na ≠ 0
    · rw [if_pos hna, if_pos (show 0 < na by omega)]
    · rw [if_neg hna, if_neg (show ¬ 0 < na by omega)]
      subst hal
      have hcond : ((recvs.filter (fun r => r != 0)).length ≠ recvs.length)
          ↔ ((recvs.any fun r => r == 0) = true) := by
        rw [any_zero_iff]
        omega
      by_cases hc : (recvs.any fun r => r == 0) = true
      · rw [if_pos (hcond.mpr hc), if_pos hc]
      · rw [if_neg (fun hh => hc (hcond.mp hh)), if_neg hc]

theorem finish_exit_status_spec_w :
    (1 : Nat) = (([3, 0] : List Nat).filter (fun r => r != 0)).length ∧
    finish_status 0 0 1 [3, 0] = finish_status_spec 0 0 1 [3, 0] :=
  ⟨by decide, finish_exit_status_spec 0 0 1 [3, 0] (by decide)⟩

/-! ### C5: stats_add -/

theorem stats_add_true_host (lf : Bool) (h : Host) (idx lat : Int) (nt : Nat) :
    stats_add lf h idx true lat nt =
      ⟨{ h with
        num_sent := h.num_sent + 1, num_sent_i := h.num_sent_i + 1,
        num_recv := h.num_recv + 1, num_recv_i := h.num_recv_i + 1,
        max_reply := if h.max_reply = 0 ∨ lat > h.max_reply then lat else h.max_reply,
        max_reply_i := if h.max_reply_i = 0 ∨ lat > h.max_reply_i then lat else h.max_reply_i,
        min_reply := if h.min_reply = 0 ∨ lat < h.min_reply then lat else h.min_reply,
        min_reply_i := if h.min_reply_i = 0 ∨ lat < h.min_reply_i then lat else h.min_reply_i,
        total_time := h.total_time + lat, total_time_i := h.total_time_i + lat,
        resp_times := if lf = false ∧ 0 ≤ idx
                      then h.resp_times.map (fun l => l.set idx.toNat lat)
                      else h.resp_times },
       nt,
       decide (lf = false ∧ 0 ≤ idx) && h.resp_times.isNone⟩ := by
  cases h
  simp [stats_add, resp_write_if]

theorem stats_add_false_host (lf : Bool) (h : Host) (idx lat : Int) (nt : Nat) :
    stats_add lf h idx false lat nt =
      ⟨{ h with
        num_sent := h.num_sent + 1, num_sent_i := h.num_sent_i + 1,
        g_num_timeout := h.g_num_timeout + 1,
        resp_times := if lf = false ∧ 0 ≤ idx
                      then h.resp_times.map (fun l => l.set idx.toNat RESP_TIMEOUT)
                      else h.resp_times },
       nt + 1,
       decide (lf = false ∧ 0 ≤ idx) && h.resp_times.isNone⟩ := by
  cases h
  simp [stats_add, resp_write_if]

/-- C5: stats_add always increments num_sent and num_sent_i; on success
it increments num_recv and num_recv_i, updates min/max (current and
interval, treating a stored 0 as unset), adds the latency to total_time
and total_time_i, and in count mode stores the latency at
resp_times[ping_index]; on failure it stores RESP_TIMEOUT there in count
mode, bumps the global num_timeout, and leaves the receive and RTT
fields unchanged. -/
theorem stats_add_matches_spec (lf : Bool) (h : Host) (idx : Int) (lat : Int)
    (nt : Nat) (l : List Int) :
    ((stats_add lf h idx true lat nt).host.num_sent = h.num_sent + 1 ∧
     (stats_add lf h idx true lat nt).host.num_sent_i = h.num_sent_i + 1 ∧
     (stats_add lf h idx false lat nt).host.num_sent = h.num_sent + 1 ∧
     (stats_add lf h idx false lat nt).host.num_sent_i = h.num_sent_i + 1) ∧
    ((stats_add lf h idx true lat nt).host.num_recv = h.num_recv + 1 ∧
     (stats_add lf h idx true lat nt).host.num_recv_i = h.num_recv_i + 1 ∧
     (stats_add lf h idx true lat nt).host.max_reply =
       (if h.max_reply = 0 then lat else max h.max_reply lat) ∧
     (stats_add lf h idx true lat nt).host.min_reply =
       (if h.min_reply = 0 then lat else min h.min_reply lat) ∧
     (stats_add lf h idx true lat nt).host.max_reply_i =
       (if h.max_reply_i = 0 then lat else max h.max_reply_i lat) ∧
     (stats_add lf h idx true lat nt).host.min_reply_i =
       (if h.min_reply_i = 0 then lat else min h.min_reply_i lat) ∧
     (stats_add lf h idx true lat nt).host.total_time = h.total_time + lat ∧
     (stats_add lf h idx true lat nt).host.total_time_i = h.total_time_i + lat ∧
     (stats_add lf h idx true lat nt).num_timeout = nt) ∧
    (lf = false → 0 ≤ idx → h.resp_times = some l →
      (stats_add lf h idx true lat nt).host.resp_times = some (l.set idx.toNat lat)) ∧
    ((stats_add lf h idx false lat nt).num_timeout = nt + 1 ∧
     (stats_add lf h idx false lat nt).host.num_recv = h.num_recv ∧
     (stats_add lf h idx false lat nt).host.num_recv_i = h.num_recv_i ∧
     (stats_add lf h idx false lat nt).host.max_reply = h.max_reply ∧
     (stats_add lf h idx false lat nt).host.min_reply = h.min_reply ∧
     (stats_add lf h idx false lat nt).host.max_reply_i = h.max_reply_i ∧
     (stats_add lf h idx false lat nt).host.min_reply_i = h.min_reply_i ∧
     (stats_add lf h idx false lat nt).host.total_time = h.total_time ∧
     (stats_add lf h idx false lat nt).host.total_time_i = h.total_time_i) ∧
    (lf = false → 0 ≤ idx → h.resp_times = some l →
      (stats_add lf h idx false lat nt).host.resp_times = some (l.set idx.toNat RESP_TIMEOUT)) := by
  refine ⟨⟨?_, ?_, ?_, ?_⟩, ⟨?_, ?_, ?_, ?_, ?_, ?_, ?_, ?_, ?_⟩, ?_,
          ⟨?_, ?_, ?_, ?_, ?_, ?_, ?_, ?_, ?_⟩, ?_⟩ <;>
    simp only [stats_add_true_host, stats_add_false_host]
  · simp only [max_def]
    split_ifs <;> omega
  · simp only [min_def]
    split_ifs <;> omega
  · simp only [max_def]
    split_ifs <;> omega
  · simp only [min_def]
    split_ifs <;> omega
  · intro h1 h2 h3
    rw [if_pos ⟨h1, h2⟩, h3]
    rfl
  · intro h1 h2 h3
    rw [if_pos ⟨h1, h2⟩, h3]
    rfl

theorem stats_add_matches_spec_w :
    (stats_add false { timeout := 150, resp_times := some [0, -2] } 0 true 5 0).host.num_recv = 1 ∧
    (stats_add false { timeout := 150, resp_times := some [0, -2] } 0 true 5 0).host.resp_times = some [5, -2] ∧
    (stats_add false { timeout := 150, resp_times := some [0, -2] } 0 false 5 0).num_timeout = 1 ∧
    (stats_add false { timeout := 150, resp_times := some [0, -2] } 0 false 5 0).host.resp_times = some [RESP_TIMEOUT, -2] :=
  ⟨(stats_add_matches_spec false { timeout := 150, resp_times := some [0, -2] } 0 5 0 [0, -2]).2.1.1,
   by
    have h1 := (stats_add_matches_spec false { timeout := 150, resp_times := some [0, -2] } 0 5 0 [0, -2]).2.2.1
      rfl (by decide) rfl
    simpa using h1,
   (stats_add_matches_spec false { timeout := 150, resp_times := some [0, -2] } 0 5 0 [0, -2]).2.2.2.1.1,
   by
    have h1 := (stats_add_matches_spec false { timeout := 150, resp_times := some [0, -2] } 0 5 0 [0, -2]).2.2.2.2
      rfl (by decide) rfl
    simpa using h1⟩

end Fping


namespace Fping

/-! ### Host-table lemmas -/

theorem getHost_setHost (hs : List Host) (i : Nat) (h : Host) (j : Nat) :
    getHost (setHost hs i h) j
      = if j = i ∧ i < hs.length then h else getHost hs j := by
  induction hs generalizing i j with
  | nil => simp [getHost, setHost]
  | cons x xs ih =>
    cases i with
    | zero =>
      cases j with
      | zero => simp [getHost, setHost]
      | succ j2 => simp [getHost, setHost]
    | succ i2 =>
      cases j with
      | zero => simp [getHost, setHost]
      | succ j2 =>
        show getHost (setHost xs i2 h) j2 = _
        rw [ih i2 j2]
        by_cases hc : j2 = i2 ∧ i2 < xs.length
        · obtain ⟨hc1, hc2⟩ := hc
          rw [if_pos ⟨hc1, hc2⟩, if_pos ⟨by omega, Nat.succ_lt_succ hc2⟩]
        · rw [if_neg hc, if_neg (by
            simp only [List.length_cons]
            intro hcc
            obtain ⟨ha, hb⟩ := hcc
            exact hc ⟨by omega, by omega⟩)]
          rfl

theorem getHost_append1 (hs : List Host) (h : Host) (j : Nat) :
    getHost (hs ++ [h]) j
      = if j < hs.length then getHost hs j
        else if j = hs.length then h else host0 := by
  induction hs generalizing j with
  | nil =>
    cases j with
    | zero => simp [getHost]
    | succ j2 => simp [getHost]
  | cons x xs ih =>
    cases j with
    | zero => simp [getHost]
    | succ j2 =>
      show getHost (xs ++ [h]) j2 = _
      rw [ih j2]
      by_cases h1 : j2 < xs.length
      · rw [if_pos h1, if_pos (by simp only [List.length_cons]; omega)]
        rfl
      · rw [if_neg h1]
        by_cases h2 : j2 = xs.length
        · rw [if_pos h2, if_neg (by simp only [List.length_cons]; omega),
              if_pos (by simp only [List.length_cons]; omega)]
        · rw [if_neg h2, if_neg (by simp only [List.length_cons]; omega),
              if_neg (by simp only [List.length_cons]; omega)]

theorem setHost_pointwise (P : Host → Prop) (hs : List Host) (i : Nat) (h : Host)
    (hall : ∀ j, P (getHost hs j)) (hP : P h) :
    ∀ j, P (getHost (setHost hs i h) j) := by
  intro j
  rw [getHost_setHost]
  split_ifs with hc
  · exact hP
  · exact hall j

theorem append_pointwise (P : Host → Prop) (hs : List Host) (h : Host)
    (hall : ∀ j, P (getHost hs j)) (hP : P h) (hP0 : P host0) :
    ∀ j, P (getHost (hs ++ [h]) j) := by
  intro j
  rw [getHost_append1]
  split_ifs
  · exact hall j
  · exact hP
  · exact hP0

theorem foldl_preserve {α : Type} {β : Type} (P : α → Prop) (f : α → β → α)
    (hstep : ∀ a b, P a → P (f a b)) :
    ∀ (bs : List β) (a : α), P a → P (bs.foldl f a) := by
  intro bs
  induction bs with
  | nil => intro a ha; exact ha
  | cons b bs2 ih => intro a ha; exact ih (f a b) (hstep a b ha)

/-! ### C4: per-host conservation -/

/-- Per-host conservation identity: sent probes split exactly into
accepted replies, handled timeouts, and failed send attempts. -/
def conserv_host (h : Host) : Prop :=
  h.num_sent = h.num_recv + h.g_num_timeout + h.g_num_senderr

theorem conserv_stats_add (lf : Bool) (h : Host) (idx lat : Int) (sc : Bool)
    (nt : Nat) (hP : conserv_host h) :
    conserv_host (stats_add lf h idx sc lat nt).host := by
  unfold conserv_host at *
  cases sc
  · simp only [stats_add_false_host]
    omega
  · simp only [stats_add_true_host]
    omega

theorem conserv_send_ping (lf : Bool) (esc : Nat) (s : St) (hIdx idx : Nat)
    (clk : Int) (ok vr : Bool)
    (hall : ∀ j, conserv_host (getHost s.hosts j)) :
    ∀ j, conserv_host (getHost (send_ping lf esc s hIdx idx clk ok vr).hosts j) := by
  by_cases hok : ok = true
  · simp only [send_ping, hok, if_true]
    apply setHost_pointwise conserv_host _ _ _ hall
    have hP := hall hIdx
    unfold conserv_host at *
    simp [resp_write_if]
    omega
  · simp only [send_ping, hok, if_false]
    apply setHost_pointwise conserv_host _ _ _ hall
    have hP := hall hIdx
    unfold conserv_host at *
    simp [resp_write_if]
    omega

theorem conserv_timeout_branch (cfg : Config) (esc : Nat) (s : St)
    (o : IterOracle) (ev : Ev) (rest : List Ev)
    (hall : ∀ j, conserv_host (getHost s.hosts j)) :
    ∀ j, conserv_host (getHost (timeout_branch cfg esc s o ev rest).hosts j) := by
  have hout : conserv_host (stats_add cfg.loop_flag (getHost s.hosts ev.host)
      (Int.ofNat ev.ping_index) false (-1) s.num_timeout).host :=
    conserv_stats_add _ _ _ _ _ _ (hall ev.host)
  have hall1 : ∀ j, conserv_host (getHost (setHost s.hosts ev.host
      (stats_add cfg.loop_flag (getHost s.hosts ev.host)
        (Int.ofNat ev.ping_index) false (-1) s.num_timeout).host) j) :=
    setHost_pointwise conserv_host _ _ _ hall hout
  simp only [timeout_branch]
  split_ifs with h1 h2 h3
  · apply conserv_send_ping
    apply setHost_pointwise conserv_host _ _ _ hall1
    exact hout
  · apply conserv_send_ping
    apply setHost_pointwise conserv_host _ _ _ hall1
    exact hout
  · exact hall1
  · exact hall1

theorem conserv_ping_branch (cfg : Config) (esc : Nat) (s : St) (o : IterOracle)
    (hall : ∀ j, conserv_host (getHost s.hosts j)) :
    ∀ j, conserv_host (getHost (ping_branch cfg esc s o).hosts j) := by
  cases hq : s.q_ping with
  | nil => simp only [ping_branch, hq]; exact hall
  | cons ev rest =>
    simp only [ping_branch, hq]
    split_ifs with h1 h2 h3
    · exact hall
    · apply conserv_send_ping
      exact hall
    · apply conserv_send_ping
      exact hall
    · exact hall

theorem conserv_wfr (cfg : Config) (esc : Nat) (s : St) (r : Reply)
    (hall : ∀ j, conserv_host (getHost s.hosts j)) :
    ∀ j, conserv_host (getHost (wait_for_reply_model cfg esc s r).hosts j) := by
  simp only [wait_for_reply_model]
  cases hf : seqmap_fetch cfg.seqmap_window s.seqmap r.seq r.clk with
  | none => exact hall
  | some e =>
    have h1c : conserv_host { getHost s.hosts e.host_nr with
        num_recv_total := (getHost s.hosts e.host_nr).num_recv_total + 1 } := by
      have hP := hall e.host_nr
      unfold conserv_host at *
      simpa using hP
    have hall1 : ∀ j, conserv_host (getHost (setHost s.hosts e.host_nr
        { getHost s.hosts e.host_nr with
          num_recv_total := (getHost s.hosts e.host_nr).num_recv_total + 1 }) j) :=
      setHost_pointwise conserv_host _ _ _ hall h1c
    simp only []
    split_ifs with hd hl ha
    · exact hall1
    · exact hall1
    · apply setHost_pointwise conserv_host _ _ _ hall1
      exact conserv_stats_add _ _ _ _ _ _ h1c
    · apply setHost_pointwise conserv_host _ _ _ hall1
      exact conserv_stats_add _ _ _ _ _ _ h1c

theorem wait_phase_hosts (cfg : Config) (esc : Nat) (s : St) (o : IterOracle) :
    (wait_phase cfg esc s o).hosts
      = (o.replies.foldl (wait_for_reply_model cfg esc) (ping_branch cfg esc s o)).hosts := rfl

theorem conserv_wait_phase (cfg : Config) (esc : Nat) (s : St) (o : IterOracle)
    (hall : ∀ j, conserv_host (getHost s.hosts j)) :
    ∀ j, conserv_host (getHost (wait_phase cfg esc s o).hosts j) := by
  have hfold := foldl_preserve (fun st => ∀ j, conserv_host (getHost st.hosts j))
    (wait_for_reply_model cfg esc) (fun st rr hst => conserv_wfr cfg esc st rr hst)
    o.replies _ (conserv_ping_branch cfg esc s o hall)
  intro j
  rw [wait_phase_hosts]
  exact hfold j

theorem conserv_iter (cfg : Config) (esc : Nat) (s : St) (o : IterOracle)
    (hall : ∀ j, conserv_host (getHost s.hosts j)) :
    ∀ j, conserv_host (getHost (main_loop_iter cfg esc s o).hosts j) := by
  unfold main_loop_iter
  by_cases hempty : s.q_ping = [] ∧ s.q_timeout = []
  · rw [if_pos hempty]; exact hall
  · rw [if_neg hempty]
    cases hq : s.q_timeout with
    | nil => exact conserv_wait_phase cfg esc s o hall
    | cons ev rest =>
      show ∀ j, conserv_host (getHost (if ev.ev_time - s.now ≤ 0
        then timeout_branch cfg esc s o ev rest
        else wait_phase cfg esc s o).hosts j)
      by_cases hdue : ev.ev_time - s.now ≤ 0
      · rw [if_pos hdue]
        exact conserv_timeout_branch cfg esc s o ev rest hall
      · rw [if_neg hdue]
        exact conserv_wait_phase cfg esc s o hall

theorem conserv_mk_init (cfg : Config) (esc trials : Nat) (start : Int)
    (mems : List (List Int)) :
    ∀ j, conserv_host (getHost (mk_init cfg esc trials start mems).hosts j) := by
  unfold mk_init
  refine foldl_preserve (fun st => ∀ j, conserv_host (getHost st.hosts j))
    (fun s mem => add_addr cfg esc trials mem s) ?_ mems _ ?_
  · intro s mem hst
    unfold add_addr
    apply append_pointwise conserv_host _ _ hst
    · unfold conserv_host
      rfl
    · unfold conserv_host
      rfl
  · intro j
    unfold conserv_host
    cases j <;> rfl

/-- C4: for every run of the model and every host, at every reachable
state (hence at termination) num_sent equals num_recv plus the per-host
count of handled timeout events plus the per-host count of failed send
attempts (the ghost fields g_num_timeout and g_num_senderr). -/
theorem per_host_conservation (cfg : Config) (esc trials : Nat) (start : Int)
    (mems : List (List Int)) (orcs : List IterOracle) (j : Nat) :
    (getHost (run_loop cfg esc (mk_init cfg esc trials start mems) orcs).hosts j).num_sent
      = (getHost (run_loop cfg esc (mk_init cfg esc trials start mems) orcs).hosts j).num_recv
        + (getHost (run_loop cfg esc (mk_init cfg esc trials start mems) orcs).hosts j).g_num_timeout
        + (getHost (run_loop cfg esc (mk_init cfg esc trials start mems) orcs).hosts j).g_num_senderr := by
  have hrun : ∀ j, conserv_host
      (getHost (run_loop cfg esc (mk_init cfg esc trials start mems) orcs).hosts j) := by
    unfold run_loop
    exact foldl_preserve (fun st => ∀ j, conserv_host (getHost st.hosts j))
      (main_loop_iter cfg esc) (fun st oo hst => conserv_iter cfg esc st oo hst)
      orcs _ (conserv_mk_init cfg esc trials start mems)
  exact hrun j

end Fping

namespace Fping

/-! ### C10: loop mode never touches resp_times -/

/-- Loop-mode safety state: no host has an allocated resp_times buffer
and no null dereference has been flagged. -/
def loop_resp_safe (s : St) : Prop :=
  (∀ j, (getHost s.hosts j).resp_times = none) ∧ s.null_deref = false

theorem loop_stats_add (lf : Bool) (hl : lf = true) (h : Host) (idx lat : Int)
    (sc : Bool) (nt : Nat) :
    (stats_add lf h idx sc lat nt).host.resp_times = h.resp_times ∧
    (stats_add lf h idx sc lat nt).null_deref = false := by
  subst hl
  cases sc <;> simp [stats_add_false_host, stats_add_true_host]

theorem loop_send_ping (lf : Bool) (hl : lf = true) (esc : Nat) (s : St)
    (hIdx idx : Nat) (clk : Int) (ok vr : Bool)
    (hs : loop_resp_safe s) :
    loop_resp_safe (send_ping lf esc s hIdx idx clk ok vr) := by
  subst hl
  obtain ⟨h1, h2⟩ := hs
  by_cases hok : ok = true
  · constructor
    · simp only [send_ping, hok, if_true]
      apply setHost_pointwise (fun h => h.resp_times = none) _ _ _ h1
      simp [resp_write_if, h1 hIdx]
    · simp only [send_ping, hok, if_true]
      simp [resp_write_if, h1 hIdx, h2]
  · constructor
    · simp only [send_ping, hok, if_false]
      apply setHost_pointwise (fun h => h.resp_times = none) _ _ _ h1
      simp [resp_write_if, h1 hIdx]
    · simp only [send_ping, hok, if_false]
      simp [resp_write_if, h1 hIdx, h2]

theorem loop_timeout_branch (cfg : Config) (esc : Nat) (s : St) (o : IterOracle)
    (ev : Ev) (rest : List Ev) (hl : cfg.loop_flag = true)
    (hs : loop_resp_safe s) :
    loop_resp_safe (timeout_branch cfg esc s o ev rest) := by
  obtain ⟨h1, h2⟩ := hs
  simp only [timeout_branch]
  split_ifs with hc1 hc2
  · exact absurd (hl ▸ hc1.1) (by simp)
  · exact absurd (hl ▸ hc1.1) (by simp)
  · refine ⟨?_, ?_⟩
    · apply setHost_pointwise (fun h => h.resp_times = none) _ _ _ h1
      exact ((loop_stats_add cfg.loop_flag hl _ _ _ _ _).1).trans (h1 ev.host)
    · show (s.null_deref || _) = false
      rw [h2, Bool.false_or]
      exact (loop_stats_add cfg.loop_flag hl _ _ _ _ _).2
  · refine ⟨?_, ?_⟩
    · apply setHost_pointwise (fun h => h.resp_times = none) _ _ _ h1
      exact ((loop_stats_add cfg.loop_flag hl _ _ _ _ _).1).trans (h1 ev.host)
    · show (s.null_deref || _) = false
      rw [h2, Bool.false_or]
      exact (loop_stats_add cfg.loop_flag hl _ _ _ _ _).2

theorem loop_ping_branch (cfg : Config) (esc : Nat) (s : St) (o : IterOracle)
    (hl : cfg.loop_flag = true) (hs : loop_resp_safe s) :
    loop_resp_safe (ping_branch cfg esc s o) := by
  cases hq : s.q_ping with
  | nil => simp only [ping_branch, hq]; exact hs
  | cons ev rest =>
    simp only [ping_branch, hq]
    split_ifs with hc1 hc2 hc3
    · exact hs
    · have hsp := loop_send_ping cfg.loop_flag hl esc
        { s with q_ping := rest } ev.host ev.ping_index o.send_clk o.send_ok false
        ⟨hs.1, hs.2⟩
      exact ⟨hsp.1, hsp.2⟩
    · have hsp := loop_send_ping cfg.loop_flag hl esc
        { s with q_ping := rest } ev.host ev.ping_index o.send_clk o.send_ok false
        ⟨hs.1, hs.2⟩
      exact hsp
    · exact hs

theorem loop_wfr (cfg : Config) (esc : Nat) (s : St) (r : Reply)
    (hl : cfg.loop_flag = true) (hs : loop_resp_safe s) :
    loop_resp_safe (wait_for_reply_model cfg esc s r) := by
  obtain ⟨h1, h2⟩ := hs
  simp only [wait_for_reply_model]
  cases hf : seqmap_fetch cfg.seqmap_window s.seqmap r.seq r.clk with
  | none => exact ⟨h1, h2⟩
  | some e =>
    have h1e : ({ getHost s.hosts e.host_nr with
        num_recv_total := (getHost s.hosts e.host_nr).num_recv_total + 1 } : Host).resp_times
        = none := by
      simpa using h1 e.host_nr
    simp only []
    split_ifs with hd hlate ha
    · refine ⟨setHost_pointwise (fun h => h.resp_times = none) _ _ _ h1 h1e, ?_⟩
      show (s.null_deref || _) = false
      rw [h2, hl, Bool.false_or]
      show (false && _) = false
      rw [Bool.false_and]
    · refine ⟨setHost_pointwise (fun h => h.resp_times = none) _ _ _ h1 h1e, ?_⟩
      show (s.null_deref || _) = false
      rw [h2, hl, Bool.false_or]
      show (false && _) = false
      rw [Bool.false_and]
    · refine ⟨?_, ?_⟩
      · apply setHost_pointwise (fun h => h.resp_times = none) _ _ _
          (setHost_pointwise (fun h => h.resp_times = none) _ _ _ h1 h1e)
        exact ((loop_stats_add cfg.loop_flag hl _ _ _ _ _).1).trans h1e
      · show ((s.null_deref || _) || _) = false
        rw [h2, hl, Bool.false_or]
        show ((false && _) || _) = false
        rw [Bool.false_and, Bool.false_or]
        exact (loop_stats_add true rfl _ _ _ _ _).2
    · refine ⟨?_, ?_⟩
      · apply setHost_pointwise (fun h => h.resp_times = none) _ _ _
          (setHost_pointwise (fun h => h.resp_times = none) _ _ _ h1 h1e)
        exact ((loop_stats_add cfg.loop_flag hl _ _ _ _ _).1).trans h1e
      · show ((s.null_deref || _) || _) = false
        rw [h2, hl, Bool.false_or]
        show ((false && _) || _) = false
        rw [Bool.false_and, Bool.false_or]
        exact (loop_stats_add true rfl _ _ _ _ _).2

theorem loop_wait_phase (cfg : Config) (esc : Nat) (s : St) (o : IterOracle)
    (hl : cfg.loop_flag = true) (hs : loop_resp_safe s) :
    loop_resp_safe (wait_phase cfg esc s o) := by
  have hfold := foldl_preserve loop_resp_safe (wait_for_reply_model cfg esc)
    (fun st rr hst => loop_wfr cfg esc st rr hl hst)
    o.replies _ (loop_ping_branch cfg esc s o hl hs)
  exact ⟨fun j => by rw [wait_phase_hosts]; exact hfold.1 j, hfold.2⟩

theorem loop_iter (cfg : Config) (esc : Nat) (s : St) (o : IterOracle)
    (hl : cfg.loop_flag = true) (hs : loop_resp_safe s) :
    loop_resp_safe (main_loop_iter cfg esc s o) := by
  unfold main_loop_iter
  by_cases hempty : s.q_ping = [] ∧ s.q_timeout = []
  · rw [if_pos hempty]; exact hs
  · rw [if_neg hempty]
    cases hq : s.q_timeout with
    | nil => exact loop_wait_phase cfg esc s o hl hs
    | cons ev rest =>
      show loop_resp_safe (if ev.ev_time - s.now ≤ 0
        then timeout_branch cfg esc s o ev rest
        else wait_phase cfg esc s o)
      by_cases hdue : ev.ev_time - s.now ≤ 0
      · rw [if_pos hdue]
        exact loop_timeout_branch cfg esc s o ev rest hl hs
      · rw [if_neg hdue]
        exact loop_wait_phase cfg esc s o hl hs

theorem loop_mk_init (cfg : Config) (esc trials : Nat) (start : Int)
    (mems : List (List Int)) (hl : cfg.loop_flag = true) :
    loop_resp_safe (mk_init cfg esc trials start mems) := by
  unfold mk_init
  refine foldl_preserve loop_resp_safe
    (fun s mem => add_addr cfg esc trials mem s) ?_ mems _ ?_
  · intro s mem hst
    unfold add_addr
    refine ⟨?_, hst.2⟩
    apply append_pointwise (fun h => h.resp_times = none) _ _ hst.1
    · simp [hl]
    · rfl
  · exact ⟨fun j => by cases j <;> rfl, rfl⟩

/-- C10: in loop mode the resp_times buffer is never allocated (every
host keeps the null pointer) and no modelled operation (probe
dispatcher, statistics aggregator, reply correlator) ever dereferences
it: the ghost null-dereference flag stays false over every run. -/
theorem loop_mode_no_resp_deref (cfg : Config) (esc trials : Nat) (start : Int)
    (mems : List (List Int)) (orcs : List IterOracle)
    (hl : cfg.loop_flag = true) :
    (run_loop cfg esc (mk_init cfg esc trials start mems) orcs).null_deref = false ∧
    ∀ j, (getHost (run_loop cfg esc (mk_init cfg esc trials start mems) orcs).hosts j).resp_times
      = none := by
  have hrun : loop_resp_safe (run_loop cfg esc (mk_init cfg esc trials start mems) orcs) := by
    unfold run_loop
    exact foldl_preserve loop_resp_safe (main_loop_iter cfg esc)
      (fun st oo hst => loop_iter cfg esc st oo hl hst)
      orcs _ (loop_mk_init cfg esc trials start mems hl)
  exact ⟨hrun.2, hrun.1⟩

end Fping

namespace Fping

/-! ### C7: sequence-map correlation -/

theorem setHost_length (hs : List Host) (i : Nat) (h : Host) :
    (setHost hs i h).length = hs.length := by
  unfold setHost
  exact List.length_set hs i h

theorem getHost_setHost_self (hs : List Host) (i : Nat) (h : Host)
    (hb : i < hs.length) : getHost (setHost hs i h) i = h := by
  rw [getHost_setHost, if_pos ⟨rfl, hb⟩]

theorem ord_get_cons (sends : List SendRec) (rec : SendRec) (ord : Nat)
    (h : ord < sends.length) :
    ord_get (rec :: sends) ord = ord_get sends ord := by
  unfold ord_get
  have he : (rec :: sends).length - 1 - ord = (sends.length - 1 - ord) + 1 := by
    simp only [List.length_cons]
    omega
  rw [he]
  rfl

theorem ord_get_cons_self (sends : List SendRec) (rec : SendRec) :
    ord_get (rec :: sends) sends.length = some rec := by
  unfold ord_get
  have he : (rec :: sends).length - 1 - sends.length = 0 := by
    simp only [List.length_cons]
    omega
  rw [he]
  rfl

theorem seq_inv_congr (s s2 : St) (h1 : s2.seqmap = s.seqmap)
    (h2 : s2.sends = s.sends) (hs : seq_inv s) : seq_inv s2 := by
  intro kv hkv
  rw [h1] at hkv
  rw [h2]
  exact hs kv hkv

theorem send_ping_seqmap (lf : Bool) (esc : Nat) (s : St) (hIdx idx : Nat)
    (clk : Int) (ok vr : Bool) :
    (send_ping lf esc s hIdx idx clk ok vr).seqmap
      = (s.seq_counter % 65536,
         (⟨hIdx, idx, clk, s.sends.length⟩ : SeqEntry)) ::
        s.seqmap.filter (fun kv => kv.1 != s.seq_counter % 65536) := by
  by_cases hok : ok = true <;> simp [send_ping, seqmap_add, hok]

theorem send_ping_sends (lf : Bool) (esc : Nat) (s : St) (hIdx idx : Nat)
    (clk : Int) (ok vr : Bool) :
    (send_ping lf esc s hIdx idx clk ok vr).sends
      = (⟨hIdx, idx, clk, vr, s.seq_counter % 65536, s.sends.length⟩ : SendRec)
        :: s.sends := by
  by_cases hok : ok = true <;> simp [send_ping, seqmap_add, hok]

theorem seq_inv_send_ping (lf : Bool) (esc : Nat) (s : St) (hIdx idx : Nat)
    (clk : Int) (ok vr : Bool) (hs : seq_inv s) :
    seq_inv (send_ping lf esc s hIdx idx clk ok vr) := by
  intro kv hkv
  rw [send_ping_seqmap] at hkv
  rw [send_ping_sends]
  rcases List.mem_cons.mp hkv with hnew | hold
  · subst hnew
    refine ⟨by simp only [List.length_cons]; omega,
            ⟨hIdx, idx, clk, vr, s.seq_counter % 65536, s.sends.length⟩,
            ?_, rfl, rfl, rfl, rfl, rfl⟩
    exact ord_get_cons_self s.sends _
  · have hold2 : kv ∈ s.seqmap := (List.mem_filter.mp hold).1
    obtain ⟨hlt, rrec, hog, hh1, hh2, hh3, hh4, hh5⟩ := hs kv hold2
    refine ⟨by simp only [List.length_cons]; omega, rrec, ?_, hh1, hh2, hh3, hh4, hh5⟩
    rw [ord_get_cons _ _ _ hlt]
    exact hog

theorem wfr_seqmap_sends (cfg : Config) (esc : Nat) (s : St) (r : Reply) :
    (wait_for_reply_model cfg esc s r).seqmap = s.seqmap ∧
    (wait_for_reply_model cfg esc s r).sends = s.sends := by
  simp only [wait_for_reply_model]
  cases hf : seqmap_fetch cfg.seqmap_window s.seqmap r.seq r.clk with
  | none => exact ⟨rfl, rfl⟩
  | some e =>
    simp only []
    split_ifs <;> exact ⟨rfl, rfl⟩

theorem seq_inv_timeout_branch (cfg : Config) (esc : Nat) (s : St)
    (o : IterOracle) (ev : Ev) (rest : List Ev) (hs : seq_inv s) :
    seq_inv (timeout_branch cfg esc s o ev rest) := by
  simp only [timeout_branch]
  split_ifs with hc1 hc2
  · apply seq_inv_send_ping
    exact seq_inv_congr s _ rfl rfl hs
  · apply seq_inv_send_ping
    exact seq_inv_congr s _ rfl rfl hs
  · exact seq_inv_congr s _ rfl rfl hs
  · exact seq_inv_congr s _ rfl rfl hs

theorem seq_inv_ping_branch (cfg : Config) (esc : Nat) (s : St)
    (o : IterOracle) (hs : seq_inv s) :
    seq_inv (ping_branch cfg esc s o) := by
  cases hq : s.q_ping with
  | nil => simp only [ping_branch, hq]; exact hs
  | cons ev rest =>
    simp only [ping_branch, hq]
    split_ifs with h1 h2 h3
    · exact hs
    · apply seq_inv_congr (send_ping cfg.loop_flag esc { s with q_ping := rest }
        ev.host ev.ping_index o.send_clk o.send_ok false) _ rfl rfl
      apply seq_inv_send_ping
      exact seq_inv_congr s _ rfl rfl hs
    · apply seq_inv_send_ping
      exact seq_inv_congr s _ rfl rfl hs
    · exact hs

theorem seq_inv_wait_phase (cfg : Config) (esc : Nat) (s : St) (o : IterOracle)
    (hs : seq_inv s) : seq_inv (wait_phase cfg esc s o) := by
  have hfold := foldl_preserve seq_inv (wait_for_reply_model cfg esc)
    (fun st rr hst => seq_inv_congr st _ (wfr_seqmap_sends cfg esc st rr).1
      (wfr_seqmap_sends cfg esc st rr).2 hst)
    o.replies _ (seq_inv_ping_branch cfg esc s o hs)
  exact seq_inv_congr _ _ rfl rfl hfold

theorem seq_inv_iter (cfg : Config) (esc : Nat) (s : St) (o : IterOracle)
    (hs : seq_inv s) : seq_inv (main_loop_iter cfg esc s o) := by
  unfold main_loop_iter
  by_cases hempty : s.q_ping = [] ∧ s.q_timeout = []
  · rw [if_pos hempty]; exact hs
  · rw [if_neg hempty]
    cases hq : s.q_timeout with
    | nil => exact seq_inv_wait_phase cfg esc s o hs
    | cons ev rest =>
      show seq_inv (if ev.ev_time - s.now ≤ 0
        then timeout_branch cfg esc s o ev rest
        else wait_phase cfg esc s o)
      by_cases hdue : ev.ev_time - s.now ≤ 0
      · rw [if_pos hdue]
        exact seq_inv_timeout_branch cfg esc s o ev rest hs
      · rw [if_neg hdue]
        exact seq_inv_wait_phase cfg esc s o hs

theorem seq_inv_mk_init (cfg : Config) (esc trials : Nat) (start : Int)
    (mems : List (List Int)) :
    seq_inv (mk_init cfg esc trials start mems) := by
  unfold mk_init
  refine foldl_preserve seq_inv (fun s mem => add_addr cfg esc trials mem s)
    ?_ mems _ ?_
  · intro s mem hst
    exact seq_inv_congr s _ rfl rfl hst
  · intro kv hkv
    simp at hkv

/-- C7: every reply matched through the sequence map corresponds to
exactly one prior send (the one whose ghost ordinal the entry stores);
such a reply always increments the matched host's num_recv_total; and a
matched reply whose count-mode slot already holds a nonnegative RTT is
dropped before the statistics update, leaving num_recv unchanged, so
duplicates after the first count in num_recv_total but not num_recv. -/
theorem seqmap_correlation (cfg : Config) (esc : Nat) (st : St) (r : Reply)
    (e : SeqEntry)
    (hf : seqmap_fetch cfg.seqmap_window st.seqmap r.seq r.clk = some e)
    (hb : e.host_nr < st.hosts.length) :
    ((getHost (wait_for_reply_model cfg esc st r).hosts e.host_nr).num_recv_total
       = (getHost st.hosts e.host_nr).num_recv_total + 1) ∧
    (cfg.loop_flag = false →
      0 ≤ (resp_read { getHost st.hosts e.host_nr with
            num_recv_total := (getHost st.hosts e.host_nr).num_recv_total + 1 }
            e.ping_count).1 →
      (getHost (wait_for_reply_model cfg esc st r).hosts e.host_nr).num_recv
        = (getHost st.hosts e.host_nr).num_recv) ∧
    (∀ (trials : Nat) (start : Int) (mems : List (List Int))
       (orcs : List IterOracle),
      seq_inv (run_loop cfg esc (mk_init cfg esc trials start mems) orcs)) := by
  refine ⟨?_, ?_, ?_⟩
  · simp only [wait_for_reply_model, hf]
    split_ifs with hd hlate ha
    · rw [getHost_setHost_self _ _ _ hb]
    · rw [getHost_setHost_self _ _ _ hb]
    · rw [getHost_setHost_self _ _ _ (by rw [setHost_length]; exact hb),
          stats_add_true_host]
    · rw [getHost_setHost_self _ _ _ (by rw [setHost_length]; exact hb),
          stats_add_true_host]
  · intro hl hdup
    simp only [wait_for_reply_model, hf]
    rw [if_pos ⟨hl, hdup⟩]
    rw [getHost_setHost_self _ _ _ hb]
  · intro trials start mems orcs
    unfold run_loop
    exact foldl_preserve seq_inv (main_loop_iter cfg esc)
      (fun st2 oo hst => seq_inv_iter cfg esc st2 oo hst)
      orcs _ (seq_inv_mk_init cfg esc trials start mems)

end Fping

namespace Fping

/-! ### C7 witness state: one send recorded, its reply about to be
processed a second time (the count-mode slot already holds RTT 5). -/

/-- Configuration for the C7 witness (count mode). -/
def cfg_c7 : Config :=
  { loop_flag := false, count_flag := true, count := 2, retry := 3,
    backoff_flag := true, interval := 100, perhost_interval := 1000,
    timeout := 150, backoff_mul := fun t => t * 3 / 2, seqmap_window := 100000 }

/-- State for the C7 witness. -/
def st_c7 : St :=
  { now := 1100, last_send_time := 1000,
    hosts := [{ timeout := 150, num_sent := 1, num_recv := 1,
                num_recv_total := 1, resp_times := some [5, -2] }],
    q_ping := [], q_timeout := [], seqmap := [(0, ⟨0, 0, 1000, 0⟩)],
    seq_counter := 1, sends := [⟨0, 0, 1000, false, 0, 0⟩] }

/-- Duplicate reply for the C7 witness. -/
def r_c7 : Reply := ⟨1100, 0⟩

/-- Matched entry for the C7 witness. -/
def e_c7 : SeqEntry := ⟨0, 0, 1000, 0⟩

/-- C7 witness: the duplicate reply is matched, counted in
num_recv_total, and dropped before the statistics update. -/
theorem seqmap_correlation_w :
    seqmap_fetch cfg_c7.seqmap_window st_c7.seqmap r_c7.seq r_c7.clk = some e_c7 ∧
    e_c7.host_nr < st_c7.hosts.length ∧
    (getHost (wait_for_reply_model cfg_c7 2 st_c7 r_c7).hosts e_c7.host_nr).num_recv_total
      = (getHost st_c7.hosts e_c7.host_nr).num_recv_total + 1 ∧
    (getHost (wait_for_reply_model cfg_c7 2 st_c7 r_c7).hosts e_c7.host_nr).num_recv
      = (getHost st_c7.hosts e_c7.host_nr).num_recv :=
  ⟨by decide, by decide,
   (seqmap_correlation cfg_c7 2 st_c7 r_c7 e_c7 (by decide) (by decide)).1,
   (seqmap_correlation cfg_c7 2 st_c7 r_c7 e_c7 (by decide) (by decide)).2.1
     rfl (by decide)⟩

/-! ### C2: pacing -/

theorem paced_cons (I : Int) (r : SendRec) (sends : List SendRec)
    (hp : paced_ping I sends = true)
    (hc : r.via_retry = true ∨ ∀ a ∈ sends.head?, a.time + I ≤ r.time) :
    paced_ping I (r :: sends) = true := by
  cases sends with
  | nil => rfl
  | cons a rest =>
    show ((r.via_retry || decide (a.time + I ≤ r.time)) && paced_ping I (a :: rest)) = true
    rcases hc with h | h
    · rw [h, Bool.true_or, Bool.true_and]
      exact hp
    · have ha := h a (by rfl)
      rw [decide_eq_true ha, Bool.or_true, Bool.true_and]
      exact hp

theorem send_ping_last (lf : Bool) (esc : Nat) (s : St) (hIdx idx : Nat)
    (clk : Int) (ok vr : Bool) :
    (send_ping lf esc s hIdx idx clk ok vr).last_send_time = clk := by
  by_cases hok : ok = true <;> simp [send_ping, hok]

theorem send_ping_qping (lf : Bool) (esc : Nat) (s : St) (hIdx idx : Nat)
    (clk : Int) (ok vr : Bool) :
    (send_ping lf esc s hIdx idx clk ok vr).q_ping = s.q_ping := by
  by_cases hok : ok = true <;> simp [send_ping, hok]

theorem wfr_last_qping (cfg : Config) (esc : Nat) (s : St) (r : Reply) :
    (wait_for_reply_model cfg esc s r).last_send_time = s.last_send_time ∧
    (wait_for_reply_model cfg esc s r).q_ping = s.q_ping := by
  simp only [wait_for_reply_model]
  cases hf : seqmap_fetch cfg.seqmap_window s.seqmap r.seq r.clk with
  | none => exact ⟨rfl, rfl⟩
  | some e =>
    simp only []
    split_ifs <;> exact ⟨rfl, rfl⟩

theorem pace_congr (I : Int) (s s2 : St) (h1 : s2.sends = s.sends)
    (h2 : s2.last_send_time = s.last_send_time)
    (hp : paced_ping I s.sends = true ∧ last_send_consistent s) :
    paced_ping I s2.sends = true ∧ last_send_consistent s2 := by
  refine ⟨by rw [h1]; exact hp.1, ?_⟩
  intro r hr
  rw [h1] at hr
  rw [h2]
  exact hp.2 r hr

theorem send_ping_pace (I : Int) (lf : Bool) (esc : Nat) (s : St)
    (hIdx idx : Nat) (clk : Int) (ok vr : Bool)
    (hinv : paced_ping I s.sends = true ∧ last_send_consistent s)
    (hc : vr = true ∨ s.last_send_time + I ≤ clk) :
    paced_ping I (send_ping lf esc s hIdx idx clk ok vr).sends = true ∧
    last_send_consistent (send_ping lf esc s hIdx idx clk ok vr) := by
  obtain ⟨hp, hl⟩ := hinv
  constructor
  · rw [send_ping_sends]
    apply paced_cons I _ _ hp
    rcases hc with h | h
    · left
      exact h
    · right
      intro a ha
      have hla := hl a ha
      show a.time + I ≤ clk
      omega
  · intro r hr
    rw [send_ping_sends] at hr
    have hr2 : (⟨hIdx, idx, clk, vr, s.seq_counter % 65536, s.sends.length⟩ : SendRec) = r := by
      simpa using hr
    subst hr2
    rw [send_ping_last]

theorem pace_timeout_branch (cfg : Config) (esc : Nat) (s : St) (o : IterOracle)
    (ev : Ev) (rest : List Ev)
    (hinv : paced_ping cfg.interval s.sends = true ∧ last_send_consistent s) :
    paced_ping cfg.interval (timeout_branch cfg esc s o ev rest).sends = true ∧
    last_send_consistent (timeout_branch cfg esc s o ev rest) := by
  simp only [timeout_branch]
  split_ifs with hc1 hc2
  · apply send_ping_pace
    · exact pace_congr cfg.interval s _ rfl rfl hinv
    · left
      rfl
  · apply send_ping_pace
    · exact pace_congr cfg.interval s _ rfl rfl hinv
    · left
      rfl
  · exact pace_congr cfg.interval s _ rfl rfl hinv
  · exact pace_congr cfg.interval s _ rfl rfl hinv

theorem pace_ping_branch (cfg : Config) (esc : Nat) (s : St) (o : IterOracle)
    (hclk : s.now ≤ o.send_clk)
    (hinv : paced_ping cfg.interval s.sends = true ∧ last_send_consistent s) :
    paced_ping cfg.interval (ping_branch cfg esc s o).sends = true ∧
    last_send_consistent (ping_branch cfg esc s o) := by
  cases hq : s.q_ping with
  | nil => simp only [ping_branch, hq]; exact hinv
  | cons ev rest =>
    simp only [ping_branch, hq]
    split_ifs with h1 h2 h3
    · exact hinv
    · have hsend := send_ping_pace cfg.interval cfg.loop_flag esc
        { s with q_ping := rest } ev.host ev.ping_index o.send_clk o.send_ok false
        (pace_congr cfg.interval s _ rfl rfl hinv)
        (Or.inr (by show s.last_send_time + cfg.interval ≤ o.send_clk; omega))
      exact pace_congr cfg.interval _ _ rfl rfl hsend
    · exact send_ping_pace cfg.interval cfg.loop_flag esc
        { s with q_ping := rest } ev.host ev.ping_index o.send_clk o.send_ok false
        (pace_congr cfg.interval s _ rfl rfl hinv)
        (Or.inr (by show s.last_send_time + cfg.interval ≤ o.send_clk; omega))
    · exact hinv

theorem pace_wait_phase (cfg : Config) (esc : Nat) (s : St) (o : IterOracle)
    (hclk : s.now ≤ o.send_clk)
    (hinv : paced_ping cfg.interval s.sends = true ∧ last_send_consistent s) :
    paced_ping cfg.interval (wait_phase cfg esc s o).sends = true ∧
    last_send_consistent (wait_phase cfg esc s o) := by
  have hfold := foldl_preserve
    (fun st => paced_ping cfg.interval st.sends = true ∧ last_send_consistent st)
    (wait_for_reply_model cfg esc)
    (fun st rr hst => pace_congr cfg.interval st _
      (wfr_seqmap_sends cfg esc st rr).2 (wfr_last_qping cfg esc st rr).1 hst)
    o.replies _ (pace_ping_branch cfg esc s o hclk hinv)
  exact pace_congr cfg.interval _ _ rfl rfl hfold

theorem pace_iter (cfg : Config) (esc : Nat) (s : St) (o : IterOracle)
    (hclk : s.now ≤ o.send_clk)
    (hinv : paced_ping cfg.interval s.sends = true ∧ last_send_consistent s) :
    paced_ping cfg.interval (main_loop_iter cfg esc s o).sends = true ∧
    last_send_consistent (main_loop_iter cfg esc s o) := by
  unfold main_loop_iter
  by_cases hempty : s.q_ping = [] ∧ s.q_timeout = []
  · rw [if_pos hempty]; exact hinv
  · rw [if_neg hempty]
    cases hq : s.q_timeout with
    | nil => exact pace_wait_phase cfg esc s o hclk hinv
    | cons ev rest =>
      show paced_ping cfg.interval (if ev.ev_time - s.now ≤ 0
          then timeout_branch cfg esc s o ev rest
          else wait_phase cfg esc s o).sends = true ∧
        last_send_consistent (if ev.ev_time - s.now ≤ 0
          then timeout_branch cfg esc s o ev rest
          else wait_phase cfg esc s o)
      by_cases hdue : ev.ev_time - s.now ≤ 0
      · rw [if_pos hdue]
        exact pace_timeout_branch cfg esc s o ev rest hinv
      · rw [if_neg hdue]
        exact pace_wait_phase cfg esc s o hclk hinv

theorem pace_run (cfg : Config) (esc : Nat) (orcs : List IterOracle) :
    ∀ s : St, good_oracles cfg esc s orcs = true →
    paced_ping cfg.interval s.sends = true ∧ last_send_consistent s →
    paced_ping cfg.interval (run_loop cfg esc s orcs).sends = true ∧
    last_send_consistent (run_loop cfg esc s orcs) := by
  induction orcs with
  | nil => intro s hg hp; exact hp
  | cons o os ih =>
    intro s hg hp
    simp only [good_oracles, Bool.and_eq_true, decide_eq_true_eq] at hg
    exact ih _ hg.2 (pace_iter cfg esc s o hg.1 hp)

theorem mk_init_sends_last (cfg : Config) (esc trials : Nat) (start : Int)
    (mems : List (List Int)) :
    (mk_init cfg esc trials start mems).sends = [] ∧
    (mk_init cfg esc trials start mems).last_send_time = 0 := by
  unfold mk_init
  refine foldl_preserve (fun st => st.sends = [] ∧ st.last_send_time = 0)
    (fun s mem => add_addr cfg esc trials mem s) ?_ mems _ ?_
  · intro s mem hst
    exact hst
  · exact ⟨rfl, rfl⟩

/-! ### C2: per-host cadence of scheduled ping events -/

theorem mem_ev_enqueue (q : List Ev) (e ev2 : Ev) (h : ev2 ∈ ev_enqueue q e) :
    ev2 = e ∨ ev2 ∈ q := by
  induction q with
  | nil =>
    simp [ev_enqueue] at h
    exact Or.inl h
  | cons x xs ih =>
    simp only [ev_enqueue] at h
    split_ifs at h with hle
    · rcases List.mem_cons.mp h with h1 | h1
      · exact Or.inr (List.mem_cons.mpr (Or.inl h1))
      · rcases ih h1 with h2 | h2
        · exact Or.inl h2
        · exact Or.inr (List.mem_cons.mpr (Or.inr h2))
    · rcases List.mem_cons.mp h with h1 | h1
      · exact Or.inl h1
      · exact Or.inr h1

theorem cad_timeout_branch_qping (cfg : Config) (esc : Nat) (s : St)
    (o : IterOracle) (ev : Ev) (rest : List Ev) :
    (timeout_branch cfg esc s o ev rest).q_ping = s.q_ping := by
  simp only [timeout_branch]
  split_ifs with hc1 hc2
  · rw [send_ping_qping]
  · rw [send_ping_qping]
  · rfl
  · rfl

theorem cad_ping_branch (cfg : Config) (esc : Nat) (s : St) (o : IterOracle)
    (start : Int)
    (hcad : ∀ ev ∈ s.q_ping, ev.ev_time = start + ev.ping_index * cfg.perhost_interval) :
    ∀ ev ∈ (ping_branch cfg esc s o).q_ping,
      ev.ev_time = start + ev.ping_index * cfg.perhost_interval := by
  cases hq : s.q_ping with
  | nil => simp only [ping_branch, hq]; intro ev hev; exact hcad ev (by rw [hq]; exact hev)
  | cons ev0 rest =>
    simp only [ping_branch, hq]
    have hrest : ∀ ev ∈ rest, ev.ev_time = start + ev.ping_index * cfg.perhost_interval :=
      fun ev hev => hcad ev (by rw [hq]; exact List.mem_cons_of_mem ev0 hev)
    split_ifs with h1 h2 h3
    · intro ev hev; exact hcad ev hev
    · intro ev hev
      rcases mem_ev_enqueue _ _ _ hev with hnew | hmem
      · subst hnew
        have h0 := hcad ev0 (by rw [hq]; exact List.mem_cons_self ev0 rest)
        show ev0.ev_time + cfg.perhost_interval = start + (↑(ev0.ping_index + 1)) * cfg.perhost_interval
        rw [h0]
        push_cast
        ring
      · have : (send_ping cfg.loop_flag esc { s with q_ping := rest }
            ev0.host ev0.ping_index o.send_clk o.send_ok false).q_ping = rest := by
          rw [send_ping_qping]
        rw [this] at hmem
        exact hrest ev hmem
    · intro ev hev
      have : (send_ping cfg.loop_flag esc { s with q_ping := rest }
          ev0.host ev0.ping_index o.send_clk o.send_ok false).q_ping = rest := by
        rw [send_ping_qping]
      rw [this] at hev
      exact hrest ev hev
    · intro ev hev; exact hcad ev hev

theorem cad_iter (cfg : Config) (esc : Nat) (s : St) (o : IterOracle) (start : Int)
    (hcad : ∀ ev ∈ s.q_ping, ev.ev_time = start + ev.ping_index * cfg.perhost_interval) :
    ∀ ev ∈ (main_loop_iter cfg esc s o).q_ping,
      ev.ev_time = start + ev.ping_index * cfg.perhost_interval := by
  have hwp : ∀ ev ∈ (wait_phase cfg esc s o).q_ping,
      ev.ev_time = start + ev.ping_index * cfg.perhost_interval := by
    have hpb := cad_ping_branch cfg esc s o start hcad
    intro ev hev
    have hq : (wait_phase cfg esc s o).q_ping = (ping_branch cfg esc s o).q_ping := by
      unfold wait_phase
      show (o.replies.foldl (wait_for_reply_model cfg esc) (ping_branch cfg esc s o)).q_ping
        = (ping_branch cfg esc s o).q_ping
      refine foldl_preserve (fun st => st.q_ping = (ping_branch cfg esc s o).q_ping)
        (wait_for_reply_model cfg esc) ?_ o.replies _ rfl
      intro a b hab
      rw [(wfr_last_qping cfg esc a b).2, hab]
    rw [hq] at hev
    exact hpb ev hev
  unfold main_loop_iter
  by_cases hempty : s.q_ping = [] ∧ s.q_timeout = []
  · rw [if_pos hempty]; exact hcad
  · rw [if_neg hempty]
    cases hq : s.q_timeout with
    | nil => exact hwp
    | cons ev0 rest =>
      show ∀ ev ∈ (if ev0.ev_time - s.now ≤ 0
          then timeout_branch cfg esc s o ev0 rest
          else wait_phase cfg esc s o).q_ping, _
      by_cases hdue : ev0.ev_time - s.now ≤ 0
      · rw [if_pos hdue]
        intro ev hev
        rw [cad_timeout_branch_qping] at hev
        exact hcad ev hev
      · rw [if_neg hdue]
        exact hwp

theorem cad_mk_init (cfg : Config) (esc trials : Nat) (start : Int)
    (mems : List (List Int)) :
    ∀ ev ∈ (mk_init cfg esc trials start mems).q_ping,
      ev.ev_time = start + ev.ping_index * cfg.perhost_interval := by
  have hgen : (∀ ev ∈ (mk_init cfg esc trials start mems).q_ping,
      ev.ev_time = start + ev.ping_index * cfg.perhost_interval) ∧
      (mk_init cfg esc trials start mems).now = start := by
    unfold mk_init
    refine foldl_preserve (fun st => (∀ ev ∈ st.q_ping,
        ev.ev_time = start + ev.ping_index * cfg.perhost_interval) ∧ st.now = start)
      (fun s mem => add_addr cfg esc trials mem s) ?_ mems _ ?_
    swap
    · exact ⟨by intro ev hev; simp at hev, rfl⟩
    intro s mem hst
    refine ⟨?_, hst.2⟩
    intro ev hev
    unfold add_addr at hev
    rcases mem_ev_enqueue _ _ _ hev with hnew | hmem
    · subst hnew
      show s.now = start + (↑(0 : Nat)) * cfg.perhost_interval
      rw [hst.2]
      push_cast
      ring
    · exact hst.1 ev hmem
  exact hgen.1

theorem cad_run (cfg : Config) (esc trials : Nat) (start : Int)
    (mems : List (List Int)) (orcs : List IterOracle) :
    ∀ ev ∈ (run_loop cfg esc (mk_init cfg esc trials start mems) orcs).q_ping,
      ev.ev_time = start + ev.ping_index * cfg.perhost_interval := by
  unfold run_loop
  exact foldl_preserve (fun st => ∀ ev ∈ st.q_ping,
      ev.ev_time = start + ev.ping_index * cfg.perhost_interval)
    (main_loop_iter cfg esc)
    (fun st oo hst => cad_iter cfg esc st oo start hst)
    orcs _ (cad_mk_init cfg esc trials start mems)

/-- C2 amended: (a) under a sane clock, every send dispatched from the
ping queue happens at least interval after the immediately preceding
send of any kind (timeout-handler retries are exempt from the global
floor, see the counterexample); (b) the scheduled ping events of every
host keep exact per-host cadence in their due times: the event for trial
i is due at start + i * perhost_interval. -/
theorem pacing_amended (cfg : Config) (esc trials : Nat) (start : Int)
    (mems : List (List Int)) (orcs : List IterOracle)
    (hg : good_oracles cfg esc (mk_init cfg esc trials start mems) orcs = true) :
    paced_ping cfg.interval
      (run_loop cfg esc (mk_init cfg esc trials start mems) orcs).sends = true ∧
    ∀ ev ∈ (run_loop cfg esc (mk_init cfg esc trials start mems) orcs).q_ping,
      ev.ev_time = start + ev.ping_index * cfg.perhost_interval := by
  have hbase : paced_ping cfg.interval (mk_init cfg esc trials start mems).sends = true ∧
      last_send_consistent (mk_init cfg esc trials start mems) := by
    obtain ⟨h1, h2⟩ := mk_init_sends_last cfg esc trials start mems
    constructor
    · rw [h1]; rfl
    · intro r hr
      rw [h1] at hr
      simp at hr
  exact ⟨(pace_run cfg esc orcs _ hg hbase).1,
         cad_run cfg esc trials start mems orcs⟩

/-- C2 amended witness at the concrete two-host run. -/
theorem pacing_amended_w :
    good_oracles cfg_c2 1 (mk_init cfg_c2 1 4 1000 [[0, 0, 0, 0], [0, 0, 0, 0]]) orcs_c2 = true ∧
    paced_ping cfg_c2.interval
      (run_loop cfg_c2 1 (mk_init cfg_c2 1 4 1000 [[0, 0, 0, 0], [0, 0, 0, 0]]) orcs_c2).sends
      = true :=
  ⟨by decide,
   (pacing_amended cfg_c2 1 4 1000 [[0, 0, 0, 0], [0, 0, 0, 0]] orcs_c2 (by decide)).1⟩

/-- C2 counterexample: in this legitimate run (sane clock readings) the
timeout-handler retry for host 0 is sent at t = 1150, only 50 ns after
the send to host 1 at t = 1100 although interval = 100 ns, and only
150 ns after host 0's previous send at t = 1000 although
perhost_interval = 1000 ns; so neither the global nor the per-host
pacing bound holds for send timestamps when retries are included. -/
theorem pacing_claim_counterexample :
    good_oracles cfg_c2 1 st_c2 orcs_c2 = true ∧
    (run_loop cfg_c2 1 st_c2 orcs_c2).sends =
      [⟨0, 0, 1150, true, 2, 2⟩, ⟨1, 0, 1100, false, 1, 1⟩,
       ⟨0, 0, 1000, false, 0, 0⟩] ∧
    paced_all cfg_c2.interval (run_loop cfg_c2 1 st_c2 orcs_c2).sends = false ∧
    paced_host cfg_c2.perhost_interval 0 (run_loop cfg_c2 1 st_c2 orcs_c2).sends = false := by
  decide

end Fping

namespace Fping

/-- Configuration for the C10 witness (loop mode). -/
def cfg_c10 : Config :=
  { loop_flag := true, count_flag := false, count := 0, retry := 0,
    backoff_flag := false, interval := 100, perhost_interval := 1000,
    timeout := 500, backoff_mul := fun t => t, seqmap_window := 100000 }

/-- Oracles for the C10 witness: one iteration that sends at t = 5. -/
def orcs_c10 : List IterOracle := [IterOracle.mk 5 true [] 10]

/-- C10 witness: a concrete one-host loop-mode run ends with the
null-dereference flag unset and the host's resp_times unallocated. -/
theorem loop_mode_no_resp_deref_w :
    cfg_c10.loop_flag = true ∧
    (run_loop cfg_c10 1 (mk_init cfg_c10 1 1 0 [[0]]) orcs_c10).null_deref = false ∧
    (getHost (run_loop cfg_c10 1 (mk_init cfg_c10 1 1 0 [[0]]) orcs_c10).hosts 0).resp_times
      = none :=
  ⟨rfl, (loop_mode_no_resp_deref cfg_c10 1 1 0 [[0]] orcs_c10 rfl).1,
   (loop_mode_no_resp_deref cfg_c10 1 1 0 [[0]] orcs_c10 rfl).2 0⟩

end Fping
